import Mathlib

/-!
# Verification of the `pgn-chess-tree` chess engine and PGN tree builder

Shallow embedding of the TypeScript sources:

* `src/chess/types.ts` — squares, colors, piece types, square names;
* `src/chess/piece.ts` — `Piece` with symbol conversion;
* `src/chess/move.ts` — `Move` with UCI encode/decode;
* `src/chess/board.ts` — `Board`: push/pop, legal move generation,
  SAN parse/render, FEN parse/render;
* `src/pgn/tree-builder.ts` — conversion of the upstream parse structure
  into a game tree;
* `src/pgn/game-node.ts` — the board cache of `GameNode.board()`.

Colors are booleans (white = `true`), piece types integers 1–6, squares
integers 0–63 with `file = sq % 8`, `rank = sq / 8`, exactly as in the
source.  Strings are modelled as `List Char`.  TypeScript `throw` is
modelled by `Except`/`Option`, and `Board.push` (which mutates before it
can throw) returns the post-mutation state together with a "threw" flag.
-/

deriving instance DecidableEq for Except

namespace PgnChessTree

/-! ## Colors and piece types (`src/chess/types.ts`) -/

/-- Color: `true` = white, `false` = black (matches `WHITE`/`BLACK`). -/
abbrev Color := Bool

abbrev WHITE : Color := true
abbrev BLACK : Color := false

/-- Piece types are integers 1–6 (`PAWN`..`KING`). -/
abbrev PAWN : Nat := 1
abbrev KNIGHT : Nat := 2
abbrev BISHOP : Nat := 3
abbrev ROOK : Nat := 4
abbrev QUEEN : Nat := 5
abbrev KING : Nat := 6

/-- `squareFile(square) = square & 7`. -/
def squareFile (sq : Nat) : Nat := sq % 8

/-- `squareRank(square) = square >> 3`. -/
def squareRank (sq : Nat) : Nat := sq / 8

/-- `squareFromFileRank(file, rank) = rank * 8 + file`. -/
def squareFromFileRank (file rank : Nat) : Nat := rank * 8 + file

/-- `SQUARE_NAMES`: the table `['a1', 'b1', …, 'h8']` of `types.ts`,
index `i` holding file `i % 8`, rank `i / 8`. -/
def SQUARE_NAMES : List (List Char) :=
  (List.range 64).map fun i =>
    [Char.ofNat (97 + i % 8), Char.ofNat (49 + i / 8)]

/-- `squareName(square)`: table lookup. -/
def squareName (sq : Nat) : List Char := SQUARE_NAMES.getD sq []

/-- `parseSquare(name)`: index of `name.toLowerCase()` in `SQUARE_NAMES`,
`none` when absent. -/
def parseSquare (name : List Char) : Option Nat :=
  let lowered := name.map Char.toLower
  let idx := SQUARE_NAMES.indexOf lowered
  if idx < 64 then some idx else none

/-- Castling-rights bits (`CASTLING_*` constants). -/
abbrev CASTLING_WHITE_KINGSIDE : Nat := 1
abbrev CASTLING_WHITE_QUEENSIDE : Nat := 2
abbrev CASTLING_BLACK_KINGSIDE : Nat := 4
abbrev CASTLING_BLACK_QUEENSIDE : Nat := 8

/-! ## Pieces (`src/chess/piece.ts`) -/

/-- A chess piece: `(pieceType, color)`. -/
structure Piece where
  pieceType : Nat
  color : Color
  deriving DecidableEq, Repr

/-- `PIECE_SYMBOLS` (index 0 unused). -/
def PIECE_SYMBOLS : List Char := ['#', 'p', 'n', 'b', 'r', 'q', 'k']

/-- `piece.symbol()`: lowercase letter, uppercased for white. -/
def Piece.symbol (p : Piece) : Char :=
  let c := PIECE_SYMBOLS.getD p.pieceType '#'
  if p.color = WHITE then c.toUpper else c

/-- `Piece.fromSymbol(symbol)`: inverse table lookup; `none` models the
`Invalid piece symbol` throw. -/
def Piece.fromSymbol (c : Char) : Option Piece :=
  let lower := c.toLower
  let idx := (PIECE_SYMBOLS.drop 1).indexOf lower
  if idx < 6 then some ⟨idx + 1, c.isUpper⟩ else none

/-! ## Moves (`src/chess/move.ts`) -/

/-- A move `(fromSquare, toSquare, promotion?, drop?)`. -/
structure Move where
  fromSquare : Nat
  toSquare : Nat
  promotion : Option Nat := none
  drop : Option Nat := none
  deriving DecidableEq, Repr

/-- `Move.null()`. -/
def Move.nullMove : Move := ⟨0, 0, none, none⟩

/-- Uppercase piece letters `['', 'P', 'N', 'B', 'R', 'Q', 'K']` used by
`uci()` for drops (index 0 is the empty string). -/
def uciDropSymbol (pt : Nat) : List Char :=
  match pt with
  | 1 => ['P'] | 2 => ['N'] | 3 => ['B'] | 4 => ['R'] | 5 => ['Q'] | 6 => ['K']
  | _ => []

/-- Lowercase promotion letters `['', '', 'n', 'b', 'r', 'q']` used by
`uci()` (indices 0 and 1 are the empty string; index 6 is out of range in
the source array and never produced by a board move). -/
def uciPromotionSymbol (pt : Nat) : List Char :=
  match pt with
  | 2 => ['n'] | 3 => ['b'] | 4 => ['r'] | 5 => ['q']
  | _ => []

/-- `move.uci()`: `"e2e4"`, `"e7e8q"`, `"P@e4"` for drops. -/
def Move.uci (m : Move) : List Char :=
  match m.drop with
  | some d => uciDropSymbol d ++ '@' :: squareName m.toSquare
  | none => squareName m.fromSquare ++ squareName m.toSquare ++
      (match m.promotion with
       | some p => uciPromotionSymbol p
       | none => [])

/-- Drop-branch piece letter lookup of `Move.fromUci`
(`['', 'P', 'N', 'B', 'R', 'Q', 'K'].indexOf(pieceSymbol)`; an unknown
letter yields the out-of-table index, never produced by `uci()`). -/
def uciDropIndex (c : Char) : Nat :=
  match c with
  | 'P' => 1 | 'N' => 2 | 'B' => 3 | 'R' => 4 | 'Q' => 5 | 'K' => 6
  | _ => 7

/-- `Move.fromUci(uci)`; `none` models the throws. -/
def Move.fromUci (uci : List Char) : Option Move :=
  if uci.length < 4 then none
  else if uci = ['0', '0', '0', '0'] then some Move.nullMove
  else if uci.contains '@' then
    let pieceSymbol := (uci.getD 0 ' ').toUpper
    let toName := (uci.drop 2).take 2
    match parseSquare toName with
    | none => none
    | some toSquare => some ⟨0, toSquare, none, some (uciDropIndex pieceSymbol)⟩
  else
    let fromName := uci.take 2
    let toName := (uci.drop 2).take 2
    let promotionChar : Option Char :=
      if 4 < uci.length then some ((uci.getD 4 ' ').toLower) else none
    match parseSquare fromName, parseSquare toName with
    | some fromSquare, some toSquare =>
      match promotionChar with
      | none => some ⟨fromSquare, toSquare, none, none⟩
      | some c =>
        match c with
        | 'n' => some ⟨fromSquare, toSquare, some KNIGHT, none⟩
        | 'b' => some ⟨fromSquare, toSquare, some BISHOP, none⟩
        | 'r' => some ⟨fromSquare, toSquare, some ROOK, none⟩
        | 'q' => some ⟨fromSquare, toSquare, some QUEEN, none⟩
        | _ => none
    | _, _ => none

/-! ## Board state (`src/chess/board.ts`) -/

/-- Snapshot of the five scalar state fields plus `pieces`
(`BoardState` interface / `saveState()`). -/
structure BoardState where
  turn : Color
  castlingRights : Nat
  epSquare : Option Nat
  halfmoveClock : Nat
  fullmoveNumber : Nat
  pieces : List (Option Piece)
  deriving DecidableEq, Repr

/-- An undo record `{ move, capturedPiece, prevState }` of `moveStack`. -/
structure StackEntry where
  move : Move
  capturedPiece : Option Piece
  prevState : BoardState
  deriving DecidableEq, Repr

/-- The board: 64-entry piece placement, state fields, undo stack.
The head of `moveStack` is the most recent push. -/
structure Board where
  pieces : List (Option Piece)
  turn : Color
  castlingRights : Nat
  epSquare : Option Nat
  halfmoveClock : Nat
  fullmoveNumber : Nat
  moveStack : List StackEntry
  deriving DecidableEq, Repr

namespace Board

/-- `pieceAt(square)`. -/
def pieceAt (b : Board) (sq : Nat) : Option Piece := b.pieces.getD sq none

/-- Indexed read used where the source computes a possibly-negative index
(`pieces[i]` is `undefined` off the array). -/
def pieceAtI (b : Board) (i : Int) : Option Piece :=
  if 0 ≤ i ∧ i < 64 then b.pieces.getD i.toNat none else none

/-- Indexed write; out-of-range writes (negative JS indices) touch no
board square. -/
def setPieceI (b : Board) (i : Int) (p : Option Piece) : Board :=
  if 0 ≤ i then { b with pieces := b.pieces.set i.toNat p } else b

/-- `king(color)`: scan squares 0–63 for the king of `color`. -/
def king (b : Board) (color : Color) : Option Nat :=
  (List.range 64).find? fun sq =>
    match b.pieces.getD sq none with
    | some p => p.pieceType = KING && p.color = color
    | none => false

/-- `saveState()`. -/
def saveState (b : Board) : BoardState :=
  ⟨b.turn, b.castlingRights, b.epSquare, b.halfmoveClock, b.fullmoveNumber, b.pieces⟩

/-- `copy()`: same observable fields, empty move stack. -/
def copy (b : Board) : Board :=
  { b with moveStack := [] }

/-- `handleCastling(move, color)`: move the king and the corresponding rook. -/
def handleCastling (b : Board) (m : Move) (color : Color) : Board :=
  let b := setPieceI b m.fromSquare none
  let b := setPieceI b m.toSquare (some ⟨KING, color⟩)
  if squareFile m.toSquare = 6 then
    let rookFrom : Nat := if color = WHITE then 7 else 63
    let rookTo : Nat := if color = WHITE then 5 else 61
    setPieceI (setPieceI b rookFrom none) rookTo (some ⟨ROOK, color⟩)
  else
    let rookFrom : Nat := if color = WHITE then 0 else 56
    let rookTo : Nat := if color = WHITE then 3 else 59
    setPieceI (setPieceI b rookFrom none) rookTo (some ⟨ROOK, color⟩)

/-- `rights &= ~mask` on the 4-bit castling mask: clear the `mask` bits. -/
def clearRights (rights mask : Nat) : Nat := rights ^^^ (rights &&& mask)

/-- `updateStateAfterMove(piece, move, captured)`: en-passant square,
castling rights, clocks, turn flip. -/
def updateStateAfterMove (b : Board) (piece : Piece) (m : Move)
    (captured : Option Piece) : Board :=
  let epSquare : Option Nat :=
    if piece.pieceType = PAWN ∧
        ((squareRank m.toSquare : Int) - squareRank m.fromSquare).natAbs = 2 then
      some ((m.fromSquare + m.toSquare) / 2)
    else none
  let rights := b.castlingRights
  let rights :=
    if piece.pieceType = KING then
      if piece.color = WHITE then clearRights rights 3 else clearRights rights 12
    else rights
  let rights :=
    if piece.pieceType = ROOK then
      let rights := if m.fromSquare = 0 then clearRights rights CASTLING_WHITE_QUEENSIDE else rights
      let rights := if m.fromSquare = 7 then clearRights rights CASTLING_WHITE_KINGSIDE else rights
      let rights := if m.fromSquare = 56 then clearRights rights CASTLING_BLACK_QUEENSIDE else rights
      if m.fromSquare = 63 then clearRights rights CASTLING_BLACK_KINGSIDE else rights
    else rights
  let rights :=
    match captured with
    | some cp =>
      if cp.pieceType = ROOK then
        let rights := if m.toSquare = 0 then clearRights rights CASTLING_WHITE_QUEENSIDE else rights
        let rights := if m.toSquare = 7 then clearRights rights CASTLING_WHITE_KINGSIDE else rights
        let rights := if m.toSquare = 56 then clearRights rights CASTLING_BLACK_QUEENSIDE else rights
        if m.toSquare = 63 then clearRights rights CASTLING_BLACK_KINGSIDE else rights
      else rights
    | none => rights
  { b with
    epSquare := epSquare
    castlingRights := rights
    halfmoveClock :=
      if piece.pieceType = PAWN ∨ captured ≠ none then 0 else b.halfmoveClock + 1
    fullmoveNumber :=
      if b.turn = BLACK then b.fullmoveNumber + 1 else b.fullmoveNumber
    turn := !b.turn }

/-- `push(move)`.  The undo record is pushed before the piece lookup; when
`move.from` is empty the source throws, which we model by returning the
post-mutation board together with `true` ("threw"). -/
def push (b : Board) (m : Move) : Board × Bool :=
  let prevState := b.saveState
  let capturedPiece := b.pieceAt m.toSquare
  let b1 : Board := { b with moveStack := ⟨m, capturedPiece, prevState⟩ :: b.moveStack }
  match b1.pieceAt m.fromSquare with
  | none => (b1, true)
  | some piece =>
    if piece.pieceType = KING ∧
        ((squareFile m.fromSquare : Int) - squareFile m.toSquare).natAbs = 2 then
      (updateStateAfterMove (handleCastling b1 m piece.color) piece m none, false)
    else
      let (b2, actualCapture) :=
        if piece.pieceType = PAWN ∧ some m.toSquare = b1.epSquare then
          let capturedPawnSquare : Int :=
            (m.toSquare : Int) + (if piece.color = WHITE then -8 else 8)
          (setPieceI b1 capturedPawnSquare none, b1.pieceAtI capturedPawnSquare)
        else (b1, capturedPiece)
      let b3 := setPieceI b2 m.fromSquare none
      let b4 :=
        match m.promotion with
        | some promo => setPieceI b3 m.toSquare (some ⟨promo, piece.color⟩)
        | none => setPieceI b3 m.toSquare (some piece)
      (updateStateAfterMove b4 piece m actualCapture, false)

/-- `pop()`: undo the last push by restoring the snapshot; `none` when the
stack is empty. -/
def pop (b : Board) : Option (Move × Board) :=
  match b.moveStack with
  | [] => none
  | entry :: rest =>
    some (entry.move,
      { pieces := entry.prevState.pieces
        turn := entry.prevState.turn
        castlingRights := entry.prevState.castlingRights
        epSquare := entry.prevState.epSquare
        halfmoveClock := entry.prevState.halfmoveClock
        fullmoveNumber := entry.prevState.fullmoveNumber
        moveStack := rest })

/-- `pieces[i] === null` in the source: true only for an in-range empty
square (out-of-range access yields `undefined`, not `null`). -/
def isNullAt (b : Board) (i : Int) : Bool :=
  0 ≤ i ∧ i < 64 ∧ b.pieces.getD i.toNat none = none

/-- The eight `KNIGHT_MOVES` offsets `[df, dr]`. -/
def KNIGHT_MOVES : List (Int × Int) :=
  [(-2, -1), (-2, 1), (-1, -2), (-1, 2), (1, -2), (1, 2), (2, -1), (2, 1)]

/-- The eight `KING_MOVES` offsets. -/
def KING_MOVES : List (Int × Int) :=
  [(-1, -1), (-1, 0), (-1, 1), (0, -1), (0, 1), (1, -1), (1, 0), (1, 1)]

def BISHOP_DIRECTIONS : List (Int × Int) := [(-1, -1), (-1, 1), (1, -1), (1, 1)]
def ROOK_DIRECTIONS : List (Int × Int) := [(-1, 0), (1, 0), (0, -1), (0, 1)]
def QUEEN_DIRECTIONS : List (Int × Int) := BISHOP_DIRECTIONS ++ ROOK_DIRECTIONS

/-- `generatePromotions(fromSq, toSq)`: queen, rook, bishop, knight. -/
def generatePromotions (fromSq toSq : Nat) : List Move :=
  [⟨fromSq, toSq, some QUEEN, none⟩, ⟨fromSq, toSq, some ROOK, none⟩,
   ⟨fromSq, toSq, some BISHOP, none⟩, ⟨fromSq, toSq, some KNIGHT, none⟩]

/-- `generatePawnMoves(fromSq, color)`. -/
def generatePawnMoves (b : Board) (fromSq : Nat) (color : Color) : List Move :=
  let file := squareFile fromSq
  let rank := squareRank fromSq
  let direction : Int := if color = WHITE then 1 else -1
  let startRank : Nat := if color = WHITE then 1 else 6
  let promotionRank : Int := if color = WHITE then 7 else 0
  let toRank : Int := (rank : Int) + direction
  let toSqI : Int := toRank * 8 + file
  let pushes :=
    if b.isNullAt toSqI then
      if toRank = promotionRank then generatePromotions fromSq toSqI.toNat
      else
        let single : List Move := [⟨fromSq, toSqI.toNat, none, none⟩]
        if rank = startRank then
          let toSq2I : Int := ((rank : Int) + 2 * direction) * 8 + file
          if b.isNullAt toSq2I then single ++ [⟨fromSq, toSq2I.toNat, none, none⟩]
          else single
        else single
    else []
  let captures := ([-1, 1] : List Int).flatMap fun df =>
    let captureFile : Int := (file : Int) + df
    if captureFile < 0 ∨ 7 < captureFile then []
    else
      let captureSqI : Int := toRank * 8 + captureFile
      let targetPiece := b.pieceAtI captureSqI
      let isCapture : Bool :=
        (match targetPiece with
         | some tp => decide (tp.color ≠ color)
         | none => false) ||
        (match b.epSquare with
         | some e => decide (captureSqI = (e : Int))
         | none => false)
      if isCapture then
        if toRank = promotionRank then generatePromotions fromSq captureSqI.toNat
        else [⟨fromSq, captureSqI.toNat, none, none⟩]
      else []
  pushes ++ captures

/-- `generateKnightMoves(fromSq, color)`. -/
def generateKnightMoves (b : Board) (fromSq : Nat) (color : Color) : List Move :=
  let file := squareFile fromSq
  let rank := squareRank fromSq
  KNIGHT_MOVES.flatMap fun (df, dr) =>
    let toFile := (file : Int) + df
    let toRank := (rank : Int) + dr
    if toFile < 0 ∨ 7 < toFile ∨ toRank < 0 ∨ 7 < toRank then []
    else
      let toSq := (toRank * 8 + toFile).toNat
      match b.pieceAt toSq with
      | some tp => if tp.color ≠ color then [⟨fromSq, toSq, none, none⟩] else []
      | none => [⟨fromSq, toSq, none, none⟩]

/-- One ray of `generateSlidingMoves`: walk `dist = 1, 2, …` until the edge
or the first occupied square (included iff opponent). -/
def slide (b : Board) (fromSq : Nat) (color : Color) (df dr : Int) : Nat → Int → Int → List Move
  | 0, _, _ => []
  | steps + 1, f, r =>
    let toFile := f + df
    let toRank := r + dr
    if toFile < 0 ∨ 7 < toFile ∨ toRank < 0 ∨ 7 < toRank then []
    else
      let toSq := (toRank * 8 + toFile).toNat
      match b.pieceAt toSq with
      | none => ⟨fromSq, toSq, none, none⟩ :: slide b fromSq color df dr steps toFile toRank
      | some tp => if tp.color ≠ color then [⟨fromSq, toSq, none, none⟩] else []

/-- `generateSlidingMoves(fromSq, color, directions)`. -/
def generateSlidingMoves (b : Board) (fromSq : Nat) (color : Color)
    (directions : List (Int × Int)) : List Move :=
  directions.flatMap fun (df, dr) =>
    slide b fromSq color df dr 7 (squareFile fromSq) (squareRank fromSq)

/-- One sliding-attack ray of `isAttacked`: stop at the first piece,
crediting queens always, bishops on diagonals, rooks on orthogonals. -/
def attackRay (b : Board) (byColor : Color) (df dr : Int) : Nat → Int → Int → Bool
  | 0, _, _ => false
  | steps + 1, f, r =>
    let fromFile := f + df
    let fromRank := r + dr
    if fromFile < 0 ∨ 7 < fromFile ∨ fromRank < 0 ∨ 7 < fromRank then false
    else
      let fromSq := (fromRank * 8 + fromFile).toNat
      match b.pieceAt fromSq with
      | none => attackRay b byColor df dr steps fromFile fromRank
      | some p =>
        if p.color = byColor then
          let isDiagonal := df ≠ 0 ∧ dr ≠ 0
          let isStraight := df = 0 ∨ dr = 0
          p.pieceType = QUEEN ∨ (p.pieceType = BISHOP ∧ isDiagonal) ∨
            (p.pieceType = ROOK ∧ isStraight)
        else false

/-- `isAttacked(square, byColor)`: knight, king, pawn, and sliding patterns. -/
def isAttacked (b : Board) (square : Nat) (byColor : Color) : Bool :=
  let file := squareFile square
  let rank := squareRank square
  let fromOffset (offs : List (Int × Int)) (pt : Nat) : Bool :=
    offs.any fun (df, dr) =>
      let fromFile := (file : Int) + df
      let fromRank := (rank : Int) + dr
      if fromFile < 0 ∨ 7 < fromFile ∨ fromRank < 0 ∨ 7 < fromRank then false
      else
        match b.pieceAt (fromRank * 8 + fromFile).toNat with
        | some p => p.pieceType = pt ∧ p.color = byColor
        | none => false
  let knight := fromOffset KNIGHT_MOVES KNIGHT
  let king := fromOffset KING_MOVES KING
  let pawn :=
    let pawnRank : Int := if byColor = WHITE then (rank : Int) - 1 else (rank : Int) + 1
    if pawnRank < 0 ∨ 7 < pawnRank then false
    else
      ([-1, 1] : List Int).any fun df =>
        let pawnFile := (file : Int) + df
        if pawnFile < 0 ∨ 7 < pawnFile then false
        else
          match b.pieceAt (pawnRank * 8 + pawnFile).toNat with
          | some p => p.pieceType = PAWN ∧ p.color = byColor
          | none => false
  let sliding := QUEEN_DIRECTIONS.any fun (df, dr) =>
    attackRay b byColor df dr 7 file rank
  knight || king || pawn || sliding

/-- `generateKingMoves(fromSq, color)`: the eight steps plus castling
(rights held, transit squares empty, origin and transit not attacked). -/
def generateKingMoves (b : Board) (fromSq : Nat) (color : Color) : List Move :=
  let file := squareFile fromSq
  let rank := squareRank fromSq
  let normal := KING_MOVES.flatMap fun (df, dr) =>
    let toFile := (file : Int) + df
    let toRank := (rank : Int) + dr
    if toFile < 0 ∨ 7 < toFile ∨ toRank < 0 ∨ 7 < toRank then []
    else
      let toSq := (toRank * 8 + toFile).toNat
      match b.pieceAt toSq with
      | some tp => if tp.color ≠ color then [⟨fromSq, toSq, none, none⟩] else []
      | none => [⟨fromSq, toSq, none, none⟩]
  let castles :=
    if color = WHITE ∧ fromSq = 4 then
      (if b.castlingRights &&& CASTLING_WHITE_KINGSIDE ≠ 0 ∧
          b.pieceAt 5 = none ∧ b.pieceAt 6 = none ∧
          b.isAttacked 4 BLACK = false ∧ b.isAttacked 5 BLACK = false then
        [⟨4, 6, none, none⟩] else []) ++
      (if b.castlingRights &&& CASTLING_WHITE_QUEENSIDE ≠ 0 ∧
          b.pieceAt 3 = none ∧ b.pieceAt 2 = none ∧ b.pieceAt 1 = none ∧
          b.isAttacked 4 BLACK = false ∧ b.isAttacked 3 BLACK = false then
        [⟨4, 2, none, none⟩] else [])
    else if color = BLACK ∧ fromSq = 60 then
      (if b.castlingRights &&& CASTLING_BLACK_KINGSIDE ≠ 0 ∧
          b.pieceAt 61 = none ∧ b.pieceAt 62 = none ∧
          b.isAttacked 60 WHITE = false ∧ b.isAttacked 61 WHITE = false then
        [⟨60, 62, none, none⟩] else []) ++
      (if b.castlingRights &&& CASTLING_BLACK_QUEENSIDE ≠ 0 ∧
          b.pieceAt 59 = none ∧ b.pieceAt 58 = none ∧ b.pieceAt 57 = none ∧
          b.isAttacked 60 WHITE = false ∧ b.isAttacked 59 WHITE = false then
        [⟨60, 58, none, none⟩] else [])
    else []
  normal ++ castles

/-- `pseudoLegalMoves()`: for each own piece on squares 0–63, the moves of
its kind, in source order. -/
def pseudoLegalMoves (b : Board) : List Move :=
  (List.range 64).flatMap fun fromSq =>
    match b.pieceAt fromSq with
    | none => []
    | some piece =>
      if piece.color ≠ b.turn then []
      else if piece.pieceType = PAWN then generatePawnMoves b fromSq piece.color
      else if piece.pieceType = KNIGHT then generateKnightMoves b fromSq piece.color
      else if piece.pieceType = BISHOP then generateSlidingMoves b fromSq piece.color BISHOP_DIRECTIONS
      else if piece.pieceType = ROOK then generateSlidingMoves b fromSq piece.color ROOK_DIRECTIONS
      else if piece.pieceType = QUEEN then generateSlidingMoves b fromSq piece.color QUEEN_DIRECTIONS
      else if piece.pieceType = KING then generateKingMoves b fromSq piece.color
      else []

/-- `isLegalMove(move)`: push on a copy (a throwing push is illegal); the
side that just moved must not leave its king attacked. -/
def isLegalMove (b : Board) (m : Move) : Bool :=
  let (c, threw) := b.copy.push m
  if threw then false
  else
    match c.king (!c.turn) with
    | some kingSq => !(c.isAttacked kingSq c.turn)
    | none => true

/-- `legalMoves()`: pseudo-legal moves filtered by `isLegalMove`. -/
def legalMoves (b : Board) : List Move :=
  b.pseudoLegalMoves.filter b.isLegalMove

/-- `isCheck()`. -/
def isCheck (b : Board) : Bool :=
  match b.king b.turn with
  | some kingSq => b.isAttacked kingSq (!b.turn)
  | none => false

/-- `isCheckmate()`. -/
def isCheckmate (b : Board) : Bool := b.isCheck && b.legalMoves.isEmpty

/-- `isStalemate()`. -/
def isStalemate (b : Board) : Bool := !b.isCheck && b.legalMoves.isEmpty

end Board

/-! ## SAN (`parseSan` / `san` of `board.ts`) -/

/-- `san.replace(/[+#!?]+$/, '')`: drop the maximal suffix of
check/annotation marks. -/
def dropTrailingMarks (s : List Char) : List Char :=
  (s.reverse.dropWhile fun c => c ∈ ['+', '#', '!', '?']).reverse

/-- `.trim()`. -/
def trimWs (s : List Char) : List Char :=
  ((s.dropWhile Char.isWhitespace).reverse.dropWhile Char.isWhitespace).reverse

/-- `s.replace(/x/i, '')`: remove the first `x` or `X`. -/
def removeFirstX : List Char → List Char
  | [] => []
  | c :: rest => if c = 'x' ∨ c = 'X' then rest else c :: removeFirstX rest

/-- Promotion-letter table of `parseSan` (case-insensitive match). -/
def sanPromotionOf (c : Char) : Option Nat :=
  match c.toLower with
  | 'q' => some QUEEN | 'r' => some ROOK | 'b' => some BISHOP | 'n' => some KNIGHT
  | _ => none

/-- Piece-letter table of `parseSan` (`[KQRBN]`, uppercase only). -/
def sanPieceTypeOf (c : Char) : Option Nat :=
  match c with
  | 'K' => some KING | 'Q' => some QUEEN | 'R' => some ROOK
  | 'B' => some BISHOP | 'N' => some KNIGHT | _ => none

namespace Board

/-- `parseSan(san)`.  Castling and null-move notations construct the move
directly; otherwise the first matching legal move is returned, and the
`Illegal move` throw is an `Except.error`. -/
def parseSan (b : Board) (san : List Char) : Except (List Char) Move :=
  let s := trimWs (dropTrailingMarks san)
  if s = "O-O".data ∨ s = "0-0".data then
    Except.ok ⟨if b.turn = WHITE then 4 else 60, if b.turn = WHITE then 6 else 62, none, none⟩
  else if s = "O-O-O".data ∨ s = "0-0-0".data then
    Except.ok ⟨if b.turn = WHITE then 4 else 60, if b.turn = WHITE then 2 else 58, none, none⟩
  else if s = "--".data ∨ s = "Z0".data then
    Except.ok Move.nullMove
  else
    -- promotion suffix `/=?([QRBN])$/i`
    let (promotion, s) :=
      match s.getLast? with
      | some c =>
        match sanPromotionOf c with
        | some p =>
          let s1 := s.dropLast
          if s1.getLast? = some '=' then (some p, s1.dropLast) else (some p, s1)
        | none => ((none : Option Nat), s)
      | none => (none, s)
    let toName := s.drop (s.length - 2)
    match parseSquare toName with
    | none => Except.error ("Invalid SAN: ".data ++ san)
    | some toSquare =>
      let s := s.take (s.length - 2)
      let s := removeFirstX s
      let (pieceType, s) :=
        match s with
        | c :: rest =>
          match sanPieceTypeOf c with
          | some pt => (pt, rest)
          | none => (PAWN, c :: rest)
        | [] => (PAWN, [])
      let (disambigFile, disambigRank) :=
        s.foldl (fun (acc : Option Nat × Option Nat) c =>
          if 'a' ≤ c ∧ c ≤ 'h' then (some (c.toNat - 97), acc.2)
          else if '1' ≤ c ∧ c ≤ '8' then (acc.1, some (c.toNat - 49))
          else acc) (none, none)
      match b.legalMoves.find? (fun mv =>
        match b.pieceAt mv.fromSquare with
        | none => false
        | some fromPiece =>
          fromPiece.pieceType = pieceType && mv.toSquare = toSquare &&
          mv.promotion = promotion &&
          (match disambigFile with
           | some f => squareFile mv.fromSquare = f
           | none => true) &&
          (match disambigRank with
           | some r => squareRank mv.fromSquare = r
           | none => true)) with
      | some mv => Except.ok mv
      | none => Except.error ("Illegal move: ".data ++ san)

/-- `parseUci(uci)` = `Move.fromUci(uci)`. -/
def parseUci (_b : Board) (uci : List Char) : Option Move := Move.fromUci uci

/-- Uppercase piece letters `['', '', 'N', 'B', 'R', 'Q', 'K']` of `san()`. -/
def sanPieceLetter (pt : Nat) : List Char :=
  match pt with
  | 2 => ['N'] | 3 => ['B'] | 4 => ['R'] | 5 => ['Q'] | 6 => ['K']
  | _ => []

/-- Promotion letters `['', '', 'N', 'B', 'R', 'Q']` of `san()`
(index 6 is out of the source array, never hit by a legal move). -/
def sanPromotionLetter (pt : Nat) : List Char :=
  match pt with
  | 2 => ['N'] | 3 => ['B'] | 4 => ['R'] | 5 => ['Q']
  | _ => []

/-- The disambiguation loop of `san()`: fold over the legal moves,
setting `needRank` on a conflicting move from the same file and
`needFile` on one from a different file. -/
def sanDisambigFlags (b : Board) (m : Move) (pt : Nat) : Bool × Bool :=
  b.legalMoves.foldl (fun (acc : Bool × Bool) om =>
    if om.toSquare ≠ m.toSquare then acc
    else if om.fromSquare = m.fromSquare then acc
    else
      match b.pieceAt om.fromSquare with
      | none => acc
      | some op =>
        if op.pieceType ≠ pt then acc
        else if squareFile om.fromSquare = squareFile m.fromSquare then (acc.1, true)
        else (true, acc.2)) (false, false)

/-- File letter `FILE_NAMES[file]`. -/
def fileChar (f : Nat) : Char := Char.ofNat (97 + f)

/-- Rank digit `(rank + 1).toString()`. -/
def rankChar (r : Nat) : Char := Char.ofNat (49 + r)

/-- `san(move)`: piece letter, disambiguation, capture marker, destination,
promotion suffix, `+`/`#`.  `none` models the `No piece at` throw. -/
def san (b : Board) (m : Move) : Option (List Char) :=
  match b.pieceAt m.fromSquare with
  | none => none
  | some piece =>
    let fileDiff : Int := (squareFile m.toSquare : Int) - squareFile m.fromSquare
    if piece.pieceType = KING ∧ fileDiff = 2 then some "O-O".data
    else if piece.pieceType = KING ∧ fileDiff = -2 then some "O-O-O".data
    else
      let letter := if piece.pieceType ≠ PAWN then sanPieceLetter piece.pieceType else []
      let disambig :=
        if piece.pieceType ≠ PAWN then
          let (needFile, needRank) := b.sanDisambigFlags m piece.pieceType
          (if needFile then [fileChar (squareFile m.fromSquare)] else []) ++
          (if needRank then [rankChar (squareRank m.fromSquare)] else [])
        else []
      let isCapture : Bool :=
        b.pieceAt m.toSquare ≠ none ||
        (piece.pieceType = PAWN && some m.toSquare = b.epSquare)
      let capture :=
        if isCapture then
          (if piece.pieceType = PAWN then [fileChar (squareFile m.fromSquare)] else []) ++ ['x']
        else []
      let promo :=
        match m.promotion with
        | some p => '=' :: sanPromotionLetter p
        | none => []
      let (c, threw) := b.copy.push m
      if threw then none
      else
        let suffix :=
          if c.isCheck then (if c.isCheckmate then ['#'] else ['+']) else []
        some (letter ++ disambig ++ capture ++ squareName m.toSquare ++ promo ++ suffix)

end Board

/-! ## FEN (`fen()` / `setFen()` of `board.ts`) -/

/-- `empty.toString()` for an empty-run count (always 1–8 here). -/
def digitChar (n : Nat) : Char := Char.ofNat (48 + n)

/-- Decimal rendering, fuelled so that it is structurally recursive
(`fuel` bounds the digit count; `natToChars` supplies enough). -/
def natToCharsAux : Nat → Nat → List Char → List Char
  | 0, _, acc => acc
  | fuel + 1, n, acc =>
    if n < 10 then digitChar n :: acc
    else natToCharsAux fuel (n / 10) (digitChar (n % 10) :: acc)

/-- Decimal rendering of a clock field (`toString()`). -/
def natToChars (n : Nat) : List Char := natToCharsAux (n + 1) n []

/-- `parseInt` on a field: value of the leading digit run, `none` for `NaN`. -/
def parseIntOpt (s : List Char) : Option Nat :=
  let ds := s.takeWhile fun c => '0' ≤ c ∧ c ≤ '9'
  if ds = [] then none
  else some (ds.foldl (fun a c => a * 10 + (c.toNat - 48)) 0)

/-- One rank of the placement field: pieces and digit runs for empties
(the inner `file` loop of `fen()`, with `empty` the pending run). -/
def renderRankGo : List (Option Piece) → Nat → List Char
  | [], e => if 0 < e then [digitChar e] else []
  | none :: rest, e => renderRankGo rest (e + 1)
  | some p :: rest, e =>
    (if 0 < e then [digitChar e] else []) ++ p.symbol :: renderRankGo rest 0

/-- The 8 cells of rank `rank`, files 0–7. -/
def rankCells (pieces : List (Option Piece)) (rank : Nat) : List (Option Piece) :=
  (List.range 8).map fun f => pieces.getD (rank * 8 + f) none

/-- `String.split('/')`-style split (no run collapsing; `"" ↦ [""]`). -/
def splitChar (sep : Char) : List Char → List (List Char)
  | [] => [[]]
  | c :: rest =>
    if c = sep then [] :: splitChar sep rest
    else
      match splitChar sep rest with
      | [] => [[c]]
      | t :: ts => (c :: t) :: ts

/-- One step of the whitespace-run split: `groups` holds the completed
fields (reversed), `current` the field being read, `inWs` whether the
previous character was whitespace. -/
def splitWsStep (st : List (List Char) × List Char × Bool) (c : Char) :
    List (List Char) × List Char × Bool :=
  let (groups, current, inWs) := st
  if c.isWhitespace then
    if inWs then st else (current.reverse :: groups, [], true)
  else
    if inWs then (groups, [c], false) else (groups, c :: current, false)

/-- `fen.split(/\s+/)`: split on maximal whitespace runs (a leading run
yields a leading empty field, as in JavaScript). -/
def splitWsRuns (s : List Char) : List (List Char) :=
  let (groups, current, _) := s.foldl splitWsStep ([], [], false)
  (current.reverse :: groups).reverse

/-- The eight placement rows of `fen()`, rank 8 first. -/
def placementRows (pieces : List (Option Piece)) : List (List Char) :=
  (List.range 8).map fun i => renderRankGo (rankCells pieces (7 - i)) 0

/-- The slash-joined placement field of `fen()`. -/
def placementField (pieces : List (Option Piece)) : List Char :=
  ((placementRows pieces).intersperse ['/']).flatten

/-- The side-to-move field of `fen()`. -/
def turnField (turn : Color) : List Char := if turn = WHITE then ['w'] else ['b']

/-- The castling letters of `fen()` in `KQkq` order. -/
def castlingChars (rights : Nat) : List Char :=
  (if rights &&& CASTLING_WHITE_KINGSIDE ≠ 0 then ['K'] else []) ++
  (if rights &&& CASTLING_WHITE_QUEENSIDE ≠ 0 then ['Q'] else []) ++
  (if rights &&& CASTLING_BLACK_KINGSIDE ≠ 0 then ['k'] else []) ++
  (if rights &&& CASTLING_BLACK_QUEENSIDE ≠ 0 then ['q'] else [])

/-- The castling field of `fen()` (`-` when no rights). -/
def castlingField (rights : Nat) : List Char :=
  if castlingChars rights = [] then ['-'] else castlingChars rights

/-- The en-passant field of `fen()`. -/
def epField (ep : Option Nat) : List Char :=
  match ep with
  | some e => squareName e
  | none => ['-']

/-- The castling-character loop of `setFen`: only `KQkq` set bits. -/
def parseCastlingChars (s : List Char) : Nat :=
  s.foldl (fun r c =>
    let r := if c = 'K' then r ||| CASTLING_WHITE_KINGSIDE else r
    let r := if c = 'Q' then r ||| CASTLING_WHITE_QUEENSIDE else r
    let r := if c = 'k' then r ||| CASTLING_BLACK_KINGSIDE else r
    if c = 'q' then r ||| CASTLING_BLACK_QUEENSIDE else r) 0

namespace Board

/-- `fen()`: the six space-separated fields. -/
def fen (b : Board) : List Char :=
  placementField b.pieces ++ ' ' :: turnField b.turn ++
    ' ' :: castlingField b.castlingRights ++ ' ' :: epField b.epSquare ++
    ' ' :: natToChars b.halfmoveClock ++ ' ' :: natToChars b.fullmoveNumber

/-- The inner character loop of `setFen`'s placement parser: digits skip
files, letters place pieces (an invalid symbol is the `fromSymbol` throw). -/
def parseRowInto (rank : Nat) : List Char → Nat → List (Option Piece) →
    Option (List (Option Piece))
  | [], _, pieces => some pieces
  | c :: rest, file, pieces =>
    if '1' ≤ c ∧ c ≤ '8' then parseRowInto rank rest (file + (c.toNat - 48)) pieces
    else
      match Piece.fromSymbol c with
      | none => none
      | some p => parseRowInto rank rest (file + 1) (pieces.set (rank * 8 + file) (some p))

/-- `setFen(fen)`: parse the six fields into a fresh board (the move stack
is cleared); `none` models the `Invalid FEN` throws.  Missing trailing
fields default to side `w`, rights `-`, ep `-`, clocks 0 and 1. -/
def setFen (fen : List Char) : Option Board :=
  let parts := splitWsRuns fen
  let rows := splitChar '/' (parts.getD 0 [])
  if rows.length ≠ 8 then none
  else
    let ranks : List Nat := [7, 6, 5, 4, 3, 2, 1, 0]
    match ranks.foldl (fun acc rank =>
        match acc with
        | none => none
        | some pieces => parseRowInto rank (rows.getD (7 - rank) []) 0 pieces)
        (some (List.replicate 64 none)) with
    | none => none
    | some pieces =>
      some
        { pieces := pieces
          turn := if 1 < parts.length ∧ parts.getD 1 [] = ['b'] then BLACK else WHITE
          castlingRights :=
            if 2 < parts.length ∧ parts.getD 2 [] ≠ ['-'] then
              parseCastlingChars (parts.getD 2 [])
            else 0
          epSquare :=
            if 3 < parts.length ∧ parts.getD 3 [] ≠ ['-'] then parseSquare (parts.getD 3 [])
            else none
          halfmoveClock :=
            if 4 < parts.length then (parseIntOpt (parts.getD 4 [])).getD 0 else 0
          fullmoveNumber :=
            if 5 < parts.length then
              match parseIntOpt (parts.getD 5 []) with
              | some n => if n = 0 then 1 else n
              | none => 1
            else 1
          moveStack := [] }

end Board

/-- `STARTING_FEN`. -/
def STARTING_FEN : List Char :=
  "rnbqkbnr/pppppppp/8/8/8/8/PPPPPPPP/RNBQKBNR w KQkq - 0 1".data

/-! ## Tree builder (`src/pgn/tree-builder.ts`)

The source mutates a `parentNode` cursor: each mainline move is appended
to the cursor's `variations`, each variation group of that move is then
built with the *same* cursor (so its nodes land in the same `variations`
array, after the move), and only then does the cursor advance to the new
node.  Functionally this is: the list of children appended to a node is
the head move's node (whose own children come from the remaining moves)
followed by the nodes contributed by the head move's variation groups. -/

/-- The `notation` object of an upstream `PgnMove` record (the field
called `notation` in `@mliebelt/pgn-types`; named `sanText` here). -/
structure SanRecord where
  sanText : List Char
  fig : Option Char := none
  col : List Char := []
  row : List Char := []
  disc : Option (List Char) := none
  promo : Option (List Char) := none
  isDrop : Bool := false
  deriving DecidableEq, Repr

/-- An element of the upstream `moves` array: a result token string, or a
move record with its notation and nested variation groups. -/
inductive PgnMove where
  | result (s : List Char)
  | entry (nota : Option SanRecord) (variations : List (List PgnMove))
  deriving Repr

/-- A game-tree node as built by the tree builder: the move and the
ordered `variations` children (element 0 is the mainline continuation). -/
inductive GNode where
  | mk (move : Move) (children : List GNode)
  deriving Repr

/-- The move of a node. -/
def GNode.move : GNode → Move
  | .mk m _ => m

/-- The `variations` children of a node. -/
def GNode.children : GNode → List GNode
  | .mk _ cs => cs

/-- `GameError { message, san, fen }` pushed by the builder. -/
structure GameError where
  message : List Char
  san : Option (List Char)
  fen : List Char
  deriving DecidableEq, Repr

/-- `{'P':1,'N':2,'B':3,'R':4,'Q':5,'K':6}[fig]` (0 for a letter outside
the table, which matches no piece). -/
def figPieceType : Char → Nat
  | 'P' => 1 | 'N' => 2 | 'B' => 3 | 'R' => 4 | 'Q' => 5 | 'K' => 6
  | _ => 0

/-- `{'N','B','R','Q'}` lookup for the fallback's promotion letter. -/
def fallbackPromotion : Char → Option Nat
  | 'N' => some KNIGHT | 'B' => some BISHOP | 'R' => some ROOK | 'Q' => some QUEEN
  | _ => none

/-- `s.replace('=', '')`: remove the first `=`. -/
def removeFirstEq : List Char → List Char
  | [] => []
  | c :: rest => if c = '=' then rest else c :: removeFirstEq rest

/-- The legal-move filter of `parseMove`'s fallback loop: destination,
piece letter, disambiguation text, and promotion letter. -/
def fallbackMatches (b : Board) (nota : SanRecord) (toSquare : Nat) (mv : Move) : Bool :=
  mv.toSquare = toSquare &&
  (match b.pieceAt mv.fromSquare with
   | none => false
   | some piece =>
     let expectedPiece :=
       match nota.fig with
       | some c => figPieceType c
       | none => 1
     piece.pieceType = expectedPiece &&
     (match nota.disc with
      | some (c :: _) =>
        let fileOk :=
          if 97 ≤ c.toNat ∧ c.toNat ≤ 104 then squareFile mv.fromSquare = c.toNat - 97
          else true
        let rankOk :=
          match parseIntOpt (c :: (nota.disc.getD []).tail) with
          | some r => if 1 ≤ r ∧ r ≤ 8 then squareRank mv.fromSquare = r - 1 else true
          | none => true
        fileOk && rankOk
      | _ => true) &&
     (match nota.promo with
      | some (c :: rest) =>
        match (removeFirstEq (c :: rest)).map Char.toUpper with
        | [p] =>
          match fallbackPromotion p with
          | some promType => mv.promotion = some promType
          | none => false
        | _ => false
      | _ => mv.promotion = none))

/-- `parseMove(pgnMove, board)`: null move, castling, drops, then
`board.parseSan` with the legal-move fallback. -/
def parseMove (nota? : Option SanRecord) (b : Board) : Except (List Char) Move :=
  match nota? with
  | none => Except.error "Move has no notation".data
  | some nota =>
    if nota.sanText = "Z0".data ∨ nota.sanText = "--".data then Except.ok Move.nullMove
    else if nota.sanText = "O-O".data ∨ nota.sanText = "0-0".data then b.parseSan "O-O".data
    else if nota.sanText = "O-O-O".data ∨ nota.sanText = "0-0-0".data then b.parseSan "O-O-O".data
    else if nota.isDrop then
      match parseSquare (nota.col ++ nota.row) with
      | none => Except.error ("Invalid drop square: ".data ++ nota.col ++ nota.row)
      | some toSquare =>
        Except.ok ⟨0, toSquare, none,
          some (figPieceType (nota.fig.getD 'P'))⟩
    else
      match b.parseSan nota.sanText with
      | Except.ok m => Except.ok m
      | Except.error _ =>
        match parseSquare (nota.col ++ nota.row) with
        | none => Except.error ("Invalid target square: ".data ++ nota.col ++ nota.row)
        | some toSquare =>
          match b.legalMoves.find? (fallbackMatches b nota toSquare) with
          | some mv => Except.ok mv
          | none => Except.error ("Could not find legal move for: ".data ++ nota.sanText)

/-- The `GameError` the builder records for an unparseable record. -/
def buildError (nota? : Option SanRecord) (b : Board) : GameError :=
  { message := "Failed to parse move: ".data ++
      (match nota? with
       | some nota => nota.sanText
       | none => "unknown".data)
    san := nota?.map SanRecord.sanText
    fen := b.fen }

mutual

/-- `buildMoveTree(parentNode, moves, board, errors)`, functionalized:
returns the list of children appended to `parentNode` together with the
errors recorded, or `none` when an uncaught throw escapes (a throwing
`push` or an unparseable variation-snapshot FEN).  An unparseable record
contributes an error and processing continues with the same cursor. -/
def buildMoveTree : List PgnMove → Board → Option (List GNode × List GameError)
  | [], _ => some ([], [])
  | PgnMove.result _ :: rest, b => buildMoveTree rest b
  | PgnMove.entry nota vars :: rest, b =>
    match parseMove nota b with
    | Except.error _ =>
      match buildMoveTree rest b with
      | none => none
      | some (cs, es) => some (cs, buildError nota b :: es)
    | Except.ok mv =>
      let fenBeforeThisMove := b.fen
      let (b', threw) := b.push mv
      if threw then none
      else
        match buildVariations vars fenBeforeThisMove with
        | none => none
        | some (varChildren, varErrs) =>
          match buildMoveTree rest b' with
          | none => none
          | some (mainChildren, mainErrs) =>
            some (GNode.mk mv mainChildren :: varChildren, varErrs ++ mainErrs)

/-- The variation loop: each non-empty group is built from a fresh board
constructed from the snapshot FEN, with the same parent cursor. -/
def buildVariations : List (List PgnMove) → List Char →
    Option (List GNode × List GameError)
  | [], _ => some ([], [])
  | vs :: more, fenB =>
    if vs.isEmpty then buildVariations more fenB
    else
      match Board.setFen fenB with
      | none => none
      | some varBoard =>
        match buildMoveTree vs varBoard with
        | none => none
        | some (cs, es) =>
          match buildVariations more fenB with
          | none => none
          | some (cs', es') => some (cs ++ cs', es ++ es')

end

mutual

/-- Structural size of a move record (for the fuelled evaluator). -/
def pgnSize : PgnMove → Nat
  | .result _ => 1
  | .entry _ vars => 1 + pgnGroupsSize vars

/-- Structural size of a list of variation groups. -/
def pgnGroupsSize : List (List PgnMove) → Nat
  | [] => 0
  | g :: more => pgnListSize g + 1 + pgnGroupsSize more

/-- Structural size of a move list. -/
def pgnListSize : List PgnMove → Nat
  | [] => 0
  | m :: rest => pgnSize m + 1 + pgnListSize rest

end

/-- Fuelled evaluator for the tree builder, recursing on the fuel so that
concrete runs reduce inside the kernel.  `Sum.inl` is the move-list mode
(`buildMoveTree`), `Sum.inr` the variation-group mode
(`buildVariations`); with enough fuel it agrees with them
(`buildMoveTree_eq_fuel`). -/
def buildFuelAux : Nat → (List PgnMove × Board) ⊕ (List (List PgnMove) × List Char) →
    Option (List GNode × List GameError)
  | 0, _ => none
  | fuel + 1, Sum.inl (moves, b) =>
    match moves with
    | [] => some ([], [])
    | PgnMove.result _ :: rest => buildFuelAux fuel (Sum.inl (rest, b))
    | PgnMove.entry nota vars :: rest =>
      match parseMove nota b with
      | Except.error _ =>
        match buildFuelAux fuel (Sum.inl (rest, b)) with
        | none => none
        | some (cs, es) => some (cs, buildError nota b :: es)
      | Except.ok mv =>
        let fenBeforeThisMove := b.fen
        let (b', threw) := b.push mv
        if threw then none
        else
          match buildFuelAux fuel (Sum.inr (vars, fenBeforeThisMove)) with
          | none => none
          | some (varChildren, varErrs) =>
            match buildFuelAux fuel (Sum.inl (rest, b')) with
            | none => none
            | some (mainChildren, mainErrs) =>
              some (GNode.mk mv mainChildren :: varChildren, varErrs ++ mainErrs)
  | fuel + 1, Sum.inr (groups, fenB) =>
    match groups with
    | [] => some ([], [])
    | vs :: more =>
      if vs.isEmpty then buildFuelAux fuel (Sum.inr (more, fenB))
      else
        match Board.setFen fenB with
        | none => none
        | some varBoard =>
          match buildFuelAux fuel (Sum.inl (vs, varBoard)) with
          | none => none
          | some (cs, es) =>
            match buildFuelAux fuel (Sum.inr (more, fenB)) with
            | none => none
            | some (cs', es') => some (cs ++ cs', es ++ es')

/-! ## `GameNode.board()` cache discipline (`src/pgn/game-node.ts`)

`board()` manipulates object references: with a valid cache it returns
`this._board.copy()` (a fresh allocation); otherwise it builds a fresh
working board, stores `board.copy()` (another fresh allocation) in the
cache, and returns the working board.  We model the JS object store as a
list-indexed heap of board values: `copy()`/`new Board` allocate at the
end of the heap, field assignment stores an index, and caller mutation is
a write through the returned index. -/

/-- An all-empty board (used as the `getD` default for heap reads). -/
def Board.emptyBoard : Board :=
  ⟨List.replicate 64 none, WHITE, 0, none, 0, 1, []⟩

instance : Inhabited Board := ⟨Board.emptyBoard⟩

/-- The `_board` / `_boardValid` cache fields of a `GameNode`. -/
structure NodeCache where
  boardRef : Option Nat
  valid : Bool
  deriving DecidableEq, Repr

/-- `GameNode.board()` on the reference heap: `computed` is the board
value obtained by replaying moves from the root (the `board` local of the
source).  Returns the index handed to the caller, the new heap, and the
updated cache. -/
def nodeBoardCall (heap : List Board) (cache : NodeCache) (computed : Board) :
    Nat × List Board × NodeCache :=
  match cache.boardRef, cache.valid with
  | some i, true =>
    -- `return this._board.copy()`: allocate a copy of the cached board
    (heap.length, heap ++ [(heap.getD i Board.emptyBoard).copy], cache)
  | _, _ =>
    -- `this._board = board.copy(); this._boardValid = true; return board`
    (heap.length, heap ++ [computed, computed.copy], ⟨some (heap.length + 1), true⟩)

/-! ## Well-formedness and fixtures -/

/-- The representable domain of a `Board` per the spec's data model:
64 squares, piece types 1–6, a 4-bit castling mask, an en-passant square
0–63 or none, and a positive fullmove number. -/
def Board.WF (b : Board) : Prop :=
  b.pieces.length = 64 ∧
  (∀ p ∈ b.pieces, ∀ q, p = some q → 1 ≤ q.pieceType ∧ q.pieceType ≤ 6) ∧
  b.castlingRights < 16 ∧
  (∀ e, b.epSquare = some e → e < 64) ∧
  1 ≤ b.fullmoveNumber

instance (b : Board) : Decidable b.WF := by
  unfold Board.WF; infer_instance

/-- Cells all valid: piece types 1–6. -/
def ValidCells (cells : List (Option Piece)) : Prop :=
  ∀ op ∈ cells, ∀ q, op = some q → 1 ≤ q.pieceType ∧ q.pieceType ≤ 6

/-- A cleaned SAN string: the `parseSan` preprocessing. -/
def cleanSan (s : List Char) : List Char := trimWs (dropTrailingMarks s)

/-- The castling and null-move notations that `parseSan` constructs
without consulting the legal moves. -/
def isCastleOrNullSan (s : List Char) : Bool :=
  s = "O-O".data || s = "0-0".data || s = "O-O-O".data || s = "0-0-0".data ||
  s = "--".data || s = "Z0".data

/-- The conflicting-move predicate of the `san()` disambiguation loop:
another legal move of the same piece type into the same destination. -/
def conflictsWith (b : Board) (m : Move) (pt : Nat) (om : Move) : Bool :=
  om.toSquare = m.toSquare && om.fromSquare ≠ m.fromSquare &&
  (match b.pieceAt om.fromSquare with
   | some op => op.pieceType = pt
   | none => false)

/-- Modelled from the spec: the disambiguation rule as the spec states it
("if any such move shares the origin file, the rank is included; else if
any shares the rank, the file is included; else if any such move exists at
all, the file is included; and no disambiguation is included when there is
no conflicting move").  Returned as `(needFile, needRank)` for comparison
with `Board.sanDisambigFlags`. -/
def specDisambiguation (b : Board) (m : Move) (pt : Nat) : Bool × Bool :=
  let others := b.legalMoves.filter (conflictsWith b m pt)
  if others.any fun om => squareFile om.fromSquare = squareFile m.fromSquare then
    (false, true)
  else if others.any fun om => squareRank om.fromSquare = squareRank m.fromSquare then
    (true, false)
  else if !others.isEmpty then (true, false)
  else (false, false)

/-- The standard starting position. -/
def startBoard : Board := (Board.setFen STARTING_FEN).getD Board.emptyBoard

/-- Lone kings on e1/e8, no castling rights (`4k3/8/8/8/8/8/8/4K3 w - - 0 1`). -/
def loneKingsBoard : Board :=
  (Board.setFen "4k3/8/8/8/8/8/8/4K3 w - - 0 1".data).getD Board.emptyBoard

/-- Kings a8/h1 with white knights a1 and c1
(`k7/8/8/8/8/8/8/N1N4K w - - 0 1`): both knights reach b3. -/
def twoKnightsBoard : Board :=
  (Board.setFen "k7/8/8/8/8/8/8/N1N4K w - - 0 1".data).getD Board.emptyBoard

/-- White queens a8, a1, h1 (kings e1/g6): all three queens reach h8
(`Q7/8/6k1/8/8/8/8/Q3K2Q w - - 0 1`). -/
def threeQueensBoard : Board :=
  (Board.setFen "Q7/8/6k1/8/8/8/8/Q3K2Q w - - 0 1".data).getD Board.emptyBoard

/-- En-passant position `k7/8/8/3pP3/8/8/8/K7 w - d6 0 1`: white pawn e5,
black pawn d5, `epSquare` d6. -/
def epBoard : Board :=
  (Board.setFen "k7/8/8/3pP3/8/8/8/K7 w - d6 0 1".data).getD Board.emptyBoard

/-- A minimal upstream record for a plain SAN move such as `"e4"`. -/
def simpleRecord (s : String) : SanRecord :=
  { sanText := s.data
    col := [s.data.getD (s.length - 2) ' ']
    row := [s.data.getD (s.length - 1) ' '] }

/-- The upstream parse of the movetext `1. e4 e5 (1... c5 2. Nf3) 2. Nf3 *`:
the variation group is attached to the `e5` record, and the result token
appears as a string element. -/
def exampleMoves : List PgnMove :=
  [ PgnMove.entry (some (simpleRecord "e4")) [],
    PgnMove.entry (some (simpleRecord "e5"))
      [[ PgnMove.entry (some (simpleRecord "c5")) [],
         PgnMove.entry (some (simpleRecord "Nf3")) [] ]],
    PgnMove.entry (some (simpleRecord "Nf3")) [],
    PgnMove.result "*".data ]

/-- Two-level shape of a built tree: each child's move, its children's
moves, and the grandchildren's moves. -/
def treeShape (cs : List GNode) : List (Move × List (Move × List Move)) :=
  cs.map fun n => (n.move, n.children.map fun n2 => (n2.move, n2.children.map GNode.move))

/-- A record whose SAN (`Qd5` with no queen on the board) fails both
`parseSan` and the fallback. -/
def badQueenRecord : SanRecord :=
  { sanText := "Qd5".data, fig := some 'Q', col := ['d'], row := ['5'] }

/-- The sequence `[Qd5 (bad), Kd1]` used to exercise error recovery. -/
def errorExampleMoves : List PgnMove :=
  [ PgnMove.entry (some badQueenRecord) [],
    PgnMove.entry (some { simpleRecord "Kd1" with fig := some 'K' }) [] ]

/-- Write-back of one parsed placement rank: the effect of
`parseRowInto` on a rendered rank (digits skip files, pieces are set). -/
def writeCells (rank : Nat) :
    List (Option Piece) → Nat → List (Option Piece) → List (Option Piece)
  | p, _, [] => p
  | p, f, none :: cs => writeCells rank p (f + 1) cs
  | p, f, some q :: cs => writeCells rank (p.set (rank * 8 + f) (some q)) (f + 1) cs

/-! ## Supporting lemmas: push/pop -/

theorem getD_set (l : List α) (k j : Nat) (v d : α) :
    (l.set k v).getD j d = if k = j ∧ j < l.length then v else l.getD j d := by
  have hg : (l.set k v).getD j d = ((l.set k v)[j]?).getD d := by
    simp [List.getD, List.get?_eq_getElem?]
  have hg' : l.getD j d = (l[j]?).getD d := by
    simp [List.getD, List.get?_eq_getElem?]
  rw [hg, hg', List.getElem?_set]
  by_cases hkj : k = j
  · subst hkj
    by_cases hlt : k < l.length
    · simp [hlt]
    · have : l[k]? = none := List.getElem?_eq_none (Nat.le_of_not_lt hlt)
      simp [hlt, this]
  · simp [hkj]

theorem moveStack_setPieceI (b : Board) (i : Int) (p : Option Piece) :
    (b.setPieceI i p).moveStack = b.moveStack := by
  unfold Board.setPieceI; split <;> rfl

theorem moveStack_handleCastling (b : Board) (m : Move) (c : Color) :
    (b.handleCastling m c).moveStack = b.moveStack := by
  unfold Board.handleCastling
  split <;> simp [moveStack_setPieceI]

theorem moveStack_updateStateAfterMove (b : Board) (p : Piece) (m : Move)
    (cp : Option Piece) : (b.updateStateAfterMove p m cp).moveStack = b.moveStack := rfl

/-- The undo record is pushed onto the stack before anything else in
`push`, in every branch, throwing or not. -/
theorem push_moveStack (b : Board) (m : Move) :
    ((b.push m).1).moveStack =
      ⟨m, b.pieceAt m.toSquare, b.saveState⟩ :: b.moveStack := by
  unfold Board.push
  cases hp : (⟨b.pieces, b.turn, b.castlingRights, b.epSquare, b.halfmoveClock,
      b.fullmoveNumber, ⟨m, b.pieceAt m.toSquare, b.saveState⟩ :: b.moveStack⟩ :
      Board).pieceAt m.fromSquare with
  | none => simp [hp]
  | some piece =>
    simp only [hp]
    split
    · simp [moveStack_updateStateAfterMove, moveStack_handleCastling]
    · repeat' split
      all_goals
        simp [moveStack_updateStateAfterMove, moveStack_setPieceI]

/-- `push` "throws" (`NoPieceToMove`) exactly when the source square is
empty. -/
theorem push_threw_iff (b : Board) (m : Move) :
    (b.push m).2 = true ↔ b.pieceAt m.fromSquare = none := by
  unfold Board.push
  cases hp : (⟨b.pieces, b.turn, b.castlingRights, b.epSquare, b.halfmoveClock,
      b.fullmoveNumber, ⟨m, b.pieceAt m.toSquare, b.saveState⟩ :: b.moveStack⟩ :
      Board).pieceAt m.fromSquare with
  | none => simp [hp]; exact hp
  | some piece =>
    simp only [hp]
    constructor
    · intro hcontra
      exfalso
      revert hcontra
      repeat' split
      all_goals simp
    · intro hcontra
      rw [show b.pieceAt m.fromSquare =
          (⟨b.pieces, b.turn, b.castlingRights, b.epSquare, b.halfmoveClock,
            b.fullmoveNumber, ⟨m, b.pieceAt m.toSquare, b.saveState⟩ :: b.moveStack⟩ :
            Board).pieceAt m.fromSquare from rfl, hp] at hcontra
      exact absurd hcontra (by simp)

/-- `pop` after `push` restores the exact pre-push board, in every branch. -/
theorem pop_push (b : Board) (m : Move) :
    Board.pop (b.push m).1 = some (m, b) := by
  have h := push_moveStack b m
  unfold Board.pop
  rw [h]
  simp [Board.saveState]

/-- A legal move's origin square is occupied (legality filtering rejects a
throwing push). -/
theorem mem_legalMoves_pieceAt (b : Board) (m : Move) (hm : m ∈ b.legalMoves) :
    b.pieceAt m.fromSquare ≠ none := by
  intro hnone
  have hleg : b.isLegalMove m = true := (List.mem_filter.mp hm).2
  have hthrew : (b.copy.push m).2 = true := (push_threw_iff _ _).mpr hnone
  unfold Board.isLegalMove at hleg
  rcases hcp : b.copy.push m with ⟨c, threw⟩
  rw [hcp] at hleg hthrew
  simp only at hthrew
  rw [hthrew] at hleg
  simp at hleg

theorem pieceAt_updateStateAfterMove (b : Board) (p : Piece) (m : Move)
    (cp : Option Piece) (j : Nat) :
    (b.updateStateAfterMove p m cp).pieceAt j = b.pieceAt j := rfl

theorem halfmoveClock_updateStateAfterMove (b : Board) (p : Piece) (m : Move)
    (cp : Option Piece) :
    (b.updateStateAfterMove p m cp).halfmoveClock =
      if p.pieceType = PAWN ∨ cp ≠ none then 0 else b.halfmoveClock + 1 := rfl

theorem pieces_length_setPieceI (b : Board) (i : Int) (p : Option Piece) :
    (b.setPieceI i p).pieces.length = b.pieces.length := by
  unfold Board.setPieceI
  split <;> simp

theorem pieceAt_setPieceI (b : Board) (i : Int) (p : Option Piece) (j : Nat) :
    (b.setPieceI i p).pieceAt j =
      if 0 ≤ i ∧ i.toNat = j ∧ j < b.pieces.length then p else b.pieceAt j := by
  unfold Board.setPieceI Board.pieceAt
  split
  · rename_i h0
    show (b.pieces.set i.toNat p).getD j none = _
    rw [getD_set]
    simp [h0]
  · rename_i h0
    simp [h0]

/-- After the three placement writes of the en-passant branch (clear the
captured pawn's square, vacate the origin, fill the destination), the
square behind the destination is empty. -/
theorem pieceAt_after_ep_sets (b : Board) (behindI : Int) (fromSq toSq : Nat)
    (x : Option Piece) (h0 : 0 ≤ behindI) (hlt : behindI.toNat < b.pieces.length)
    (hne : behindI.toNat ≠ toSq) :
    (((b.setPieceI behindI none).setPieceI (fromSq : Int) none).setPieceI
        (toSq : Int) x).pieceAt behindI.toNat = none := by
  rw [pieceAt_setPieceI]
  rw [if_neg (by
    rintro ⟨-, h2, -⟩
    exact hne (by simpa using h2.symm))]
  rw [pieceAt_setPieceI]
  split
  · rfl
  · rw [pieceAt_setPieceI,
      if_pos ⟨h0, rfl, by simpa [pieces_length_setPieceI] using hlt⟩]

/-! ## Claim theorems: push/pop (C2, C10) and en passant (C8) -/

/-- **C2.** For every board and every move legal in its current position,
`push` then `pop` restores the exact pre-push board — every observable
field including the piece placement — `pop` returns the pushed move, and
`pop` on an empty move stack returns `none`. -/
theorem c2_push_pop_roundtrip (b : Board) (m : Move) (hm : m ∈ b.legalMoves) :
    (b.push m).2 = false ∧ Board.pop (b.push m).1 = some (m, b) ∧
    ∀ b₀ : Board, b₀.moveStack = [] → Board.pop b₀ = none := by
  refine ⟨?_, pop_push b m, ?_⟩
  · cases hpp : (b.push m).2 with
    | false => rfl
    | true => exact absurd ((push_threw_iff b m).mp hpp) (mem_legalMoves_pieceAt b m hm)
  · intro b₀ h0
    unfold Board.pop
    rw [h0]

theorem c2_push_pop_roundtrip_witness :
    ((loneKingsBoard.push ⟨4, 3, none, none⟩).2 = false ∧
      Board.pop (loneKingsBoard.push ⟨4, 3, none, none⟩).1 =
        some (⟨4, 3, none, none⟩, loneKingsBoard) ∧
      ∀ b₀ : Board, b₀.moveStack = [] → Board.pop b₀ = none) :=
  c2_push_pop_roundtrip loneKingsBoard ⟨4, 3, none, none⟩ (by decide)

/-- **C10.** When `push` is invoked with an empty source square it throws,
but only after the undo record (with a complete snapshot) has been pushed:
the post-throw board is exactly the pre-push board plus that record, and a
subsequent `pop` returns the failed move and restores the pre-push board
exactly. -/
theorem c10_failed_push_undo (b : Board) (m : Move)
    (h : b.pieceAt m.fromSquare = none) :
    (b.push m).2 = true ∧
    (b.push m).1 =
      { b with moveStack := ⟨m, b.pieceAt m.toSquare, b.saveState⟩ :: b.moveStack } ∧
    Board.pop (b.push m).1 = some (m, b) := by
  refine ⟨(push_threw_iff b m).mpr h, ?_, pop_push b m⟩
  have hp : (⟨b.pieces, b.turn, b.castlingRights, b.epSquare, b.halfmoveClock,
      b.fullmoveNumber, ⟨m, b.pieceAt m.toSquare, b.saveState⟩ :: b.moveStack⟩ :
      Board).pieceAt m.fromSquare = none := h
  simp only [Board.push]
  rw [hp]

theorem c10_failed_push_undo_witness :
    (startBoard.push ⟨28, 36, none, none⟩).2 = true ∧
    (startBoard.push ⟨28, 36, none, none⟩).1 =
      { startBoard with
        moveStack := ⟨⟨28, 36, none, none⟩, startBoard.pieceAt 36,
          startBoard.saveState⟩ :: startBoard.moveStack } ∧
    Board.pop (startBoard.push ⟨28, 36, none, none⟩).1 =
      some (⟨28, 36, none, none⟩, startBoard) :=
  c10_failed_push_undo startBoard ⟨28, 36, none, none⟩ (by decide)

/-- **C8 counterexample.** In the en-passant position
`k7/8/8/3pP3/8/8/8/K7 w - d6 0 1`, pushing `e5xd6` removes the black pawn
from d5, yet the undo record's `capturedPiece` field is `none` (the
content of the destination square), not the removed pawn — contradicting
the claim that the removed pawn is the captured piece recorded in the
undo record. -/
theorem c8_counterexample :
    (epBoard.push ⟨36, 43, none, none⟩).1.moveStack.head?.map
        StackEntry.capturedPiece = some none ∧
    epBoard.pieceAt 35 = some ⟨PAWN, BLACK⟩ ∧
    (epBoard.push ⟨36, 43, none, none⟩).1.pieceAt 35 = none ∧
    epBoard.epSquare = some 43 ∧
    epBoard.pieceAt 36 = some ⟨PAWN, WHITE⟩ := by decide

/-- **C8 amended.** On an en-passant push (pawn at the source, destination
equal to `epSquare`), the pawn one rank behind the destination is removed
from the board and the move is accounted as a pawn move/capture
(`halfmoveClock` resets), but the undo record pushed onto the stack stores
the pre-push content of the *destination* square as `capturedPiece`
(empty for a true en-passant capture) together with the full `prevState`
snapshot, which is what `pop` restores from. -/
theorem c8_ep_capture (b : Board) (m : Move) (piece : Piece)
    (hp : b.pieceAt m.fromSquare = some piece)
    (hpt : piece.pieceType = PAWN)
    (hep : b.epSquare = some m.toSquare)
    (hlen : b.pieces.length = 64)
    (hto : m.toSquare < 64)
    (hwr : piece.color = WHITE → 8 ≤ m.toSquare)
    (hbr : piece.color = BLACK → m.toSquare + 8 < 64) :
    (b.push m).1.moveStack =
      ⟨m, b.pieceAt m.toSquare, b.saveState⟩ :: b.moveStack ∧
    (b.push m).1.pieceAt
      (if piece.color = WHITE then m.toSquare - 8 else m.toSquare + 8) = none ∧
    (b.push m).1.halfmoveClock = 0 := by
  refine ⟨push_moveStack b m, ?_⟩
  have hp' : (⟨b.pieces, b.turn, b.castlingRights, b.epSquare, b.halfmoveClock,
      b.fullmoveNumber, ⟨m, b.pieceAt m.toSquare, b.saveState⟩ :: b.moveStack⟩ :
      Board).pieceAt m.fromSquare = some piece := hp
  simp only [Board.push]
  rw [hp']
  dsimp only
  have hking : ¬(piece.pieceType = KING ∧
      ((squareFile m.fromSquare : Int) - squareFile m.toSquare).natAbs = 2) := by
    rintro ⟨hk, -⟩
    rw [hpt] at hk
    exact absurd hk (by decide)
  rw [if_neg hking]
  have hepc : (piece.pieceType = PAWN ∧ some m.toSquare = b.epSquare) :=
    ⟨hpt, hep.symm⟩
  rw [if_pos hepc]
  set behindI : Int := (m.toSquare : Int) + (if piece.color = WHITE then -8 else 8) with hbI
  have hbNat : 0 ≤ behindI ∧ behindI.toNat =
      (if piece.color = WHITE then m.toSquare - 8 else m.toSquare + 8) ∧
      behindI.toNat < 64 := by
    cases hc : piece.color with
    | true =>
      have h1 : 8 ≤ m.toSquare := hwr hc
      rw [hbI]
      simp only [hc, WHITE, if_pos]
      refine ⟨by omega, by omega, by omega⟩
    | false =>
      have h1 : m.toSquare + 8 < 64 := hbr hc
      rw [hbI]
      simp only [hc, WHITE, Bool.false_eq_true, if_neg, if_false]
      refine ⟨by omega, by omega, by omega⟩
  dsimp only
  have hlt' : behindI.toNat < b.pieces.length := hlen ▸ hbNat.2.2
  have hne : behindI.toNat ≠ m.toSquare := by
    rw [hbNat.2.1]
    cases hc : piece.color with
    | true =>
      have h1 : 8 ≤ m.toSquare := hwr hc
      simp only [hc, WHITE, if_pos]
      omega
    | false =>
      simp only [hc, WHITE, Bool.false_eq_true, if_neg, if_false]
      omega
  refine ⟨?_, ?_⟩
  · rw [← hbNat.2.1]
    cases hpr : m.promotion with
    | none =>
      simp only [hpr]
      rw [pieceAt_updateStateAfterMove]
      exact pieceAt_after_ep_sets _ behindI m.fromSquare m.toSquare _
        hbNat.1 hlt' hne
    | some pr =>
      simp only [hpr]
      rw [pieceAt_updateStateAfterMove]
      exact pieceAt_after_ep_sets _ behindI m.fromSquare m.toSquare _
        hbNat.1 hlt' hne
  · cases hpr : m.promotion with
    | none =>
      simp only [hpr]
      rw [halfmoveClock_updateStateAfterMove, if_pos (Or.inl hpt)]
    | some pr =>
      simp only [hpr]
      rw [halfmoveClock_updateStateAfterMove, if_pos (Or.inl hpt)]

/-! ## Claim theorem: board-cache ownership (C9) -/

theorem copy_copy (b : Board) : b.copy.copy = b.copy := rfl

theorem getD_append_last (l : List Board) (x : Board) :
    (l ++ [x]).getD l.length Board.emptyBoard = x := by
  rw [List.getD_append_right _ _ _ _ (le_refl _)]
  simp

/-- **C9.** `GameNode.board()` hands out an owned copy: the reference it
returns is never the reference stored in the cache, so writing any board
value through the returned reference leaves the cached board unchanged,
and a subsequent `board()` call yields the same position (up to `copy`,
which clears only the move stack) as the one returned before the
mutation. -/
theorem c9_board_owned_copy (heap : List Board) (cache : NodeCache)
    (computed : Board) (ret : Nat) (heap' : List Board) (cache' : NodeCache)
    (hv : ∀ i, cache.boardRef = some i → i < heap.length)
    (hcall : nodeBoardCall heap cache computed = (ret, heap', cache')) :
    cache'.boardRef ≠ some ret ∧
    ∀ (v : Board) (j : Nat), cache'.boardRef = some j →
      ((heap'.set ret v).getD j Board.emptyBoard =
        heap'.getD j Board.emptyBoard) ∧
      ∀ ret2 heap2 cache2,
        nodeBoardCall (heap'.set ret v) cache' computed = (ret2, heap2, cache2) →
        (heap2.getD ret2 Board.emptyBoard).copy =
          (heap'.getD ret Board.emptyBoard).copy := by
  unfold nodeBoardCall at hcall
  rcases hcb : cache.boardRef with _ | i
  · rw [hcb] at hcall
    cases hcall
    refine ⟨by simp, ?_⟩
    intro v j hj
    simp only at hj
    obtain rfl : j = heap.length + 1 := (Option.some.inj hj).symm
    refine ⟨?_, ?_⟩
    · rw [getD_set, if_neg (by omega)]
    · intro ret2 heap2 cache2 hcall2
      unfold nodeBoardCall at hcall2
      simp only at hcall2
      cases hcall2
      rw [getD_append_last]
      rw [getD_set, if_neg (by omega)]
      rw [List.getD_append_right _ _ _ _ (by omega),
        List.getD_append_right _ _ _ _ (by omega)]
      simp [copy_copy]
  · cases hvb : cache.valid
    · rw [hcb, hvb] at hcall
      cases hcall
      refine ⟨by simp, ?_⟩
      intro v j hj
      simp only at hj
      obtain rfl : j = heap.length + 1 := (Option.some.inj hj).symm
      refine ⟨?_, ?_⟩
      · rw [getD_set, if_neg (by omega)]
      · intro ret2 heap2 cache2 hcall2
        unfold nodeBoardCall at hcall2
        simp only at hcall2
        cases hcall2
        rw [getD_append_last]
        rw [getD_set, if_neg (by omega)]
        rw [List.getD_append_right _ _ _ _ (by omega),
          List.getD_append_right _ _ _ _ (by omega)]
        simp [copy_copy]
    · have hi : i < heap.length := hv i hcb
      rw [hcb, hvb] at hcall
      cases hcall
      refine ⟨?_, ?_⟩
      · rw [hcb]
        simp only [ne_eq, Option.some.injEq]
        omega
      · intro v j hj
        rw [hcb] at hj
        obtain rfl : j = i := (Option.some.inj hj).symm
        refine ⟨?_, ?_⟩
        · rw [getD_set, if_neg (by omega), List.getD_append _ _ _ _ hi]
        · intro ret2 heap2 cache2 hcall2
          unfold nodeBoardCall at hcall2
          rw [hcb, hvb] at hcall2
          cases hcall2
          rw [getD_append_last]
          rw [getD_set, if_neg (by omega), List.getD_append _ _ _ _ hi,
            List.getD_append_right _ _ _ _ (le_refl _)]
          simp [copy_copy]

theorem c9_board_owned_copy_witness :
    ((⟨some 1, true⟩ : NodeCache).boardRef ≠ some 0 ∧
      ∀ (v : Board) (j : Nat), (⟨some 1, true⟩ : NodeCache).boardRef = some j →
        (([loneKingsBoard, loneKingsBoard.copy].set 0 v).getD j Board.emptyBoard =
          [loneKingsBoard, loneKingsBoard.copy].getD j Board.emptyBoard) ∧
        ∀ ret2 heap2 cache2,
          nodeBoardCall ([loneKingsBoard, loneKingsBoard.copy].set 0 v)
            ⟨some 1, true⟩ loneKingsBoard = (ret2, heap2, cache2) →
          (heap2.getD ret2 Board.emptyBoard).copy =
            ([loneKingsBoard, loneKingsBoard.copy].getD 0 Board.emptyBoard).copy) :=
  c9_board_owned_copy [] ⟨none, false⟩ loneKingsBoard 0
    [loneKingsBoard, loneKingsBoard.copy] ⟨some 1, true⟩
    (fun i hi => by simp at hi) rfl

/-! ## Builder lemmas and the fuelled evaluator bridge (for C1) -/

/-- One mainline step of the builder when the record parses and the push
succeeds: the record's node is appended first, its own children coming
only from the remaining mainline moves, and the nodes contributed by the
record's variation groups (built from the pre-move FEN snapshot) follow
it in the *same* parent list. -/
theorem buildMoveTree_cons_ok (nota : Option SanRecord)
    (vars : List (List PgnMove)) (rest : List PgnMove) (b : Board) (mv : Move)
    (hp : parseMove nota b = Except.ok mv)
    (hthrew : (b.push mv).2 = false) :
    buildMoveTree (PgnMove.entry nota vars :: rest) b =
      match buildVariations vars b.fen, buildMoveTree rest (b.push mv).1 with
      | some (vc, ve), some (mc, me) =>
        some (GNode.mk mv mc :: vc, ve ++ me)
      | _, _ => none := by
  rw [buildMoveTree, hp]
  dsimp only
  rcases hpp : b.push mv with ⟨b', threw⟩
  rw [hpp] at hthrew
  simp only at hthrew
  subst hthrew
  simp only [Bool.false_eq_true, if_false]
  rcases buildVariations vars b.fen with _ | ⟨vc, ve⟩ <;>
    rcases buildMoveTree rest b' with _ | ⟨mc, me⟩ <;> rfl

/-- The head of a non-empty variation group whose first record parses:
its node leads that group's contribution to the parent's children, and
its own children come from the rest of the group. -/
theorem buildVariations_cons_head (nota1 : Option SanRecord)
    (vars1 : List (List PgnMove)) (vs' : List PgnMove)
    (more : List (List PgnMove)) (fenB : List Char) (vb : Board) (mv1 : Move)
    (hfen : Board.setFen fenB = some vb)
    (hp : parseMove nota1 vb = Except.ok mv1)
    (hthrew : (vb.push mv1).2 = false) :
    ∀ out, buildVariations ((PgnMove.entry nota1 vars1 :: vs') :: more) fenB =
        some out →
      ∃ mc tail me, out.1 = GNode.mk mv1 mc :: tail ∧
        buildMoveTree vs' (vb.push mv1).1 = some (mc, me) := by
  intro out hout
  rw [buildVariations] at hout
  simp only [List.isEmpty_cons, if_false, Bool.false_eq_true] at hout
  rw [hfen] at hout
  dsimp only at hout
  rw [buildMoveTree_cons_ok nota1 vars1 vs' vb mv1 hp hthrew] at hout
  rcases hv1 : buildVariations vars1 vb.fen with _ | ⟨vc, ve⟩ <;>
    rw [hv1] at hout
  · simp at hout
  · rcases hm : buildMoveTree vs' (vb.push mv1).1 with _ | ⟨mc, me⟩ <;>
      rw [hm] at hout
    · simp at hout
    · rcases hmore : buildVariations more fenB with _ | ⟨cs', es'⟩ <;>
        rw [hmore] at hout
      · simp at hout
      · simp only [Option.some.injEq] at hout
        subst hout
        exact ⟨mc, vc ++ cs', me, rfl, rfl⟩

/-- With enough fuel, the fuelled evaluator agrees with `buildMoveTree`
and `buildVariations`. -/
theorem build_eq_fuel : ∀ fuel : Nat,
    (∀ (ms : List PgnMove) (b : Board), pgnListSize ms < fuel →
      buildMoveTree ms b = buildFuelAux fuel (Sum.inl (ms, b))) ∧
    (∀ (gs : List (List PgnMove)) (fenB : List Char), pgnGroupsSize gs < fuel →
      buildVariations gs fenB = buildFuelAux fuel (Sum.inr (gs, fenB))) := by
  intro fuel
  induction fuel with
  | zero =>
    constructor <;> intro _ _ h <;> exact absurd h (by omega)
  | succ f ih =>
    constructor
    · intro ms b h
      cases ms with
      | nil => rw [buildMoveTree]; rfl
      | cons m rest =>
        cases m with
        | result s =>
          rw [buildMoveTree]
          rw [show buildFuelAux (f + 1) (Sum.inl (PgnMove.result s :: rest, b)) =
            buildFuelAux f (Sum.inl (rest, b)) from rfl]
          exact ih.1 rest b (by
            simp only [pgnListSize, pgnSize] at h ⊢
            omega)
        | entry nota vars =>
          have hrest : pgnListSize rest < f := by
            simp only [pgnListSize, pgnSize] at h
            omega
          have hvars : pgnGroupsSize vars < f := by
            simp only [pgnListSize, pgnSize] at h
            omega
          rw [buildMoveTree, buildFuelAux]
          cases hp : parseMove nota b with
          | error e => rw [ih.1 rest b hrest]
          | ok mv =>
            dsimp only
            rcases hpp : b.push mv with ⟨b', threw⟩
            cases threw
            · simp only [Bool.false_eq_true, if_false]
              rw [ih.2 vars b.fen hvars, ih.1 rest b' hrest]
            · rfl
    · intro gs fenB h
      cases gs with
      | nil => rw [buildVariations]; rfl
      | cons vs more =>
        have hmore : pgnGroupsSize more < f := by
          simp only [pgnGroupsSize] at h
          omega
        have hvs : pgnListSize vs < f := by
          simp only [pgnGroupsSize] at h
          omega
        rw [buildVariations, buildFuelAux]
        cases hvse : vs.isEmpty
        · simp only [Bool.false_eq_true, if_false]
          cases Board.setFen fenB with
          | none => rfl
          | some varBoard =>
            dsimp only
            rw [ih.1 vs varBoard hvs, ih.2 more fenB hmore]
        · simp only [if_true]
          exact ih.2 more fenB hmore

/-- **C1.** When the tree builder processes a move record `M` carrying
variation groups, the first move of each variation is added as a further
child of the node under which `M` itself was appended — a sibling
following `M` in that node's `variations` array, never a child of `M`
(`M`'s node's own children come only from the remaining mainline moves);
and building the upstream parse of `1. e4 e5 (1... c5 2. Nf3) 2. Nf3 *`
yields a root with exactly one child e4 (e2e4), whose children are in
order e5 (e7e5) then c5 (c7c5), with c5 having exactly one child Nf3
(g1f3). -/
theorem c1_variation_siblings :
    (∀ (nota : Option SanRecord) (vars : List (List PgnMove))
       (rest : List PgnMove) (b : Board) (mv : Move),
       parseMove nota b = Except.ok mv → (b.push mv).2 = false →
       buildMoveTree (PgnMove.entry nota vars :: rest) b =
         match buildVariations vars b.fen, buildMoveTree rest (b.push mv).1 with
         | some (vc, ve), some (mc, me) =>
           some (GNode.mk mv mc :: vc, ve ++ me)
         | _, _ => none) ∧
    (∀ (nota1 : Option SanRecord) (vars1 : List (List PgnMove))
       (vs' : List PgnMove) (more : List (List PgnMove)) (fenB : List Char)
       (vb : Board) (mv1 : Move),
       Board.setFen fenB = some vb → parseMove nota1 vb = Except.ok mv1 →
       (vb.push mv1).2 = false →
       ∀ out, buildVariations ((PgnMove.entry nota1 vars1 :: vs') :: more)
           fenB = some out →
         ∃ mc tail me, out.1 = GNode.mk mv1 mc :: tail ∧
           buildMoveTree vs' (vb.push mv1).1 = some (mc, me)) ∧
    (buildMoveTree exampleMoves startBoard).map (fun r => treeShape r.1) =
      some [(⟨12, 28, none, none⟩,
        [(⟨52, 36, none, none⟩, [⟨6, 21, none, none⟩]),
         (⟨50, 34, none, none⟩, [⟨6, 21, none, none⟩])])] := by
  refine ⟨buildMoveTree_cons_ok, buildVariations_cons_head, ?_⟩
  have hsz : pgnListSize exampleMoves < 64 := by
    simp only [exampleMoves, pgnListSize, pgnSize, pgnGroupsSize]
    omega
  rw [(build_eq_fuel 64).1 exampleMoves startBoard hsz]
  decide

theorem c1_variation_siblings_witness :
    buildMoveTree [PgnMove.entry (some (simpleRecord "e4")) []] startBoard =
      match buildVariations [] startBoard.fen,
        buildMoveTree [] (startBoard.push ⟨12, 28, none, none⟩).1 with
      | some (vc, ve), some (mc, me) =>
        some (GNode.mk ⟨12, 28, none, none⟩ mc :: vc, ve ++ me)
      | _, _ => none :=
  c1_variation_siblings.1 (some (simpleRecord "e4")) [] [] startBoard
    ⟨12, 28, none, none⟩ (by decide) (by decide)

/-! ## Claim theorems: SAN disambiguation (C5) -/

/-- The disambiguation fold of `san()` computes, for each flag, whether
some conflicting legal move exists with a different (respectively the
same) origin file. -/
theorem sanDisambigFlags_eq (b : Board) (m : Move) (pt : Nat) :
    b.sanDisambigFlags m pt =
      (b.legalMoves.any fun om => conflictsWith b m pt om &&
         decide (squareFile om.fromSquare ≠ squareFile m.fromSquare),
       b.legalMoves.any fun om => conflictsWith b m pt om &&
         decide (squareFile om.fromSquare = squareFile m.fromSquare)) := by
  unfold Board.sanDisambigFlags
  suffices h : ∀ (l : List Move) (acc : Bool × Bool),
      l.foldl (fun (acc : Bool × Bool) om =>
        if om.toSquare ≠ m.toSquare then acc
        else if om.fromSquare = m.fromSquare then acc
        else
          match b.pieceAt om.fromSquare with
          | none => acc
          | some op =>
            if op.pieceType ≠ pt then acc
            else if squareFile om.fromSquare = squareFile m.fromSquare then
              (acc.1, true)
            else (true, acc.2)) acc =
      (acc.1 || l.any fun om => conflictsWith b m pt om &&
         decide (squareFile om.fromSquare ≠ squareFile m.fromSquare),
       acc.2 || l.any fun om => conflictsWith b m pt om &&
         decide (squareFile om.fromSquare = squareFile m.fromSquare)) by
    rw [h]
    simp
  intro l
  induction l with
  | nil => intro acc; simp
  | cons hd tl ih =>
    intro acc
    simp only [List.foldl_cons, List.any_cons]
    rw [ih]
    by_cases h1 : hd.toSquare = m.toSquare
    · by_cases h2 : hd.fromSquare = m.fromSquare
      · simp [h1, h2, conflictsWith]
      · cases hp : b.pieceAt hd.fromSquare with
        | none => simp [h1, h2, hp, conflictsWith]
        | some op =>
          by_cases h3 : op.pieceType = pt
          · by_cases h4 : squareFile hd.fromSquare = squareFile m.fromSquare
            · simp [h1, h2, hp, h3, h4, conflictsWith, Bool.or_assoc,
                Bool.or_comm, Bool.or_left_comm]
            · simp [h1, h2, hp, h3, h4, conflictsWith, Bool.or_assoc,
                Bool.or_comm, Bool.or_left_comm]
          · simp [h1, h2, hp, h3, conflictsWith]
    · simp [h1, conflictsWith]

/-- **C5 counterexample.** On `Q7/8/6k1/8/8/8/8/Q3K2Q w - - 0 1` the move
Qa1–h8 conflicts with Qa8 (same origin file) and Qh1 (different origin
file).  The spec's else-chain would include only the rank (`Q1h8`), but
the code sets both flags and renders `Qa1h8` — the file is included even
though another conflicting move shares the origin file. -/
theorem c5_counterexample :
    threeQueensBoard.san ⟨0, 63, none, none⟩ = some "Qa1h8".data ∧
    threeQueensBoard.sanDisambigFlags ⟨0, 63, none, none⟩ QUEEN = (true, true) ∧
    specDisambiguation threeQueensBoard ⟨0, 63, none, none⟩ QUEEN = (false, true) ∧
    (⟨0, 63, none, none⟩ : Move) ∈ threeQueensBoard.legalMoves := by decide

/-- **C5 amended.** `san()`'s disambiguation examines all other legal
moves of the same piece type to the same destination, but the two flags
are independent, not an else-chain: the rank is included iff some such
move shares the origin file, and the file is included iff some such move
originates from a *different* file — so both can be included at once, and
no disambiguation appears when there is no conflicting move. -/
theorem c5_san_disambiguation (b : Board) (m : Move) (pt : Nat) :
    ((b.sanDisambigFlags m pt).1 = true ↔
      ∃ om ∈ b.legalMoves, conflictsWith b m pt om = true ∧
        squareFile om.fromSquare ≠ squareFile m.fromSquare) ∧
    ((b.sanDisambigFlags m pt).2 = true ↔
      ∃ om ∈ b.legalMoves, conflictsWith b m pt om = true ∧
        squareFile om.fromSquare = squareFile m.fromSquare) := by
  rw [sanDisambigFlags_eq]
  constructor <;>
  · simp [List.any_eq_true]

/-! ## Claim theorems: UCI round-trip (C7), error recovery (C6), SAN
parsing (C3) -/

/-- **C7 counterexample.** `uci()` of a drop move discards the source
square: `Move(12, 28, null, KNIGHT).uci() = "N@e4"`, which decodes to a
move with `fromSquare = 0`, not the original move — so
`Move.fromUci(m.uci()) = m` fails for a constructible move. -/
theorem c7_counterexample :
    Move.uci ⟨12, 28, none, some KNIGHT⟩ = "N@e4".data ∧
    Move.fromUci (Move.uci ⟨12, 28, none, some KNIGHT⟩) =
      some ⟨0, 28, none, some KNIGHT⟩ ∧
    (⟨0, 28, none, some KNIGHT⟩ : Move) ≠ ⟨12, 28, none, some KNIGHT⟩ := by
  decide

theorem squareName_no_at : ∀ s < 64, '@' ∉ squareName s := by decide

theorem squareName_head_ne_zero : ∀ s < 64, (squareName s).getD 0 ' ' ≠ '0' := by
  decide

theorem parseSquare_squareName : ∀ s < 64, parseSquare (squareName s) = some s := by
  decide

theorem squareName_length : ∀ s < 64, (squareName s).length = 2 := by decide

/-- `Move.fromUci` decodes a four-character square pair. -/
theorem fromUci_names (f t : Nat) (hf : f < 64) (ht : t < 64)
    (suffix : List Char) (promo : Option Nat)
    (hsfx : suffix = [] ∧ promo = none ∨
      suffix = ['n'] ∧ promo = some KNIGHT ∨ suffix = ['b'] ∧ promo = some BISHOP ∨
      suffix = ['r'] ∧ promo = some ROOK ∨ suffix = ['q'] ∧ promo = some QUEEN) :
    Move.fromUci (squareName f ++ squareName t ++ suffix) =
      some ⟨f, t, promo, none⟩ := by
  obtain ⟨a1, a2, hA⟩ := List.length_eq_two.mp (squareName_length f hf)
  obtain ⟨b1, b2, hB⟩ := List.length_eq_two.mp (squareName_length t ht)
  have h0 : a1 ≠ '0' := by
    have := squareName_head_ne_zero f hf
    rw [hA] at this
    simpa using this
  have hatA : a1 ≠ '@' ∧ a2 ≠ '@' := by
    have := squareName_no_at f hf
    rw [hA] at this
    simp at this
    tauto
  have hatB : b1 ≠ '@' ∧ b2 ≠ '@' := by
    have := squareName_no_at t ht
    rw [hB] at this
    simp at this
    tauto
  have hsqF : parseSquare [a1, a2] = some f := by
    rw [← hA]; exact parseSquare_squareName f hf
  have hsqT : parseSquare [b1, b2] = some t := by
    rw [← hB]; exact parseSquare_squareName t ht
  rcases hsfx with ⟨rfl, rfl⟩ | ⟨rfl, rfl⟩ | ⟨rfl, rfl⟩ | ⟨rfl, rfl⟩ | ⟨rfl, rfl⟩ <;>
  · rw [hA, hB]
    rw [Move.fromUci]
    rw [if_neg (by simp), if_neg (by simp [h0]),
      if_neg (by
        simp [Ne.symm hatA.1, Ne.symm hatA.2, Ne.symm hatB.1, Ne.symm hatB.2])]
    simp only [List.cons_append, List.nil_append, List.take_succ_cons,
      List.take_zero, List.drop_succ_cons, List.drop_zero, List.length_cons]
    rw [hsqF, hsqT]
    simp [List.getD]

/-- **C7 amended.** `Move.fromUci(m.uci()) = m` holds for the moves `uci()`
renders losslessly: non-drop moves whose promotion is absent or one of
knight/bishop/rook/queen, and drop moves with `fromSquare = 0` and no
promotion.  (`uci()` discards a drop's source square and promotion, and
encodes a pawn "promotion" (type 1) as an empty suffix, so those moves do
not round-trip — see the counterexample.) -/
theorem c7_uci_roundtrip (m : Move)
    (hf : m.fromSquare < 64) (ht : m.toSquare < 64)
    (h : (m.drop = none ∧ (m.promotion = none ∨
            ∃ p, m.promotion = some p ∧ 2 ≤ p ∧ p ≤ 5)) ∨
         (∃ d, m.drop = some d ∧ 1 ≤ d ∧ d ≤ 6 ∧ m.fromSquare = 0 ∧
            m.promotion = none)) :
    Move.fromUci m.uci = some m := by
  obtain ⟨mf, mt, mp, md⟩ := m
  simp only at hf ht h ⊢
  rcases h with ⟨hd, hp⟩ | ⟨d, hd, hd1, hd6, hf0, hp⟩
  · subst hd
    rcases hp with rfl | ⟨p, rfl, hp2, hp5⟩
    · have := fromUci_names mf mt hf ht [] none (Or.inl ⟨rfl, rfl⟩)
      simpa [Move.uci] using this
    · interval_cases p
      · have := fromUci_names mf mt hf ht ['n'] (some KNIGHT)
          (Or.inr (Or.inl ⟨rfl, rfl⟩))
        simpa [Move.uci, uciPromotionSymbol] using this
      · have := fromUci_names mf mt hf ht ['b'] (some BISHOP)
          (Or.inr (Or.inr (Or.inl ⟨rfl, rfl⟩)))
        simpa [Move.uci, uciPromotionSymbol] using this
      · have := fromUci_names mf mt hf ht ['r'] (some ROOK)
          (Or.inr (Or.inr (Or.inr (Or.inl ⟨rfl, rfl⟩))))
        simpa [Move.uci, uciPromotionSymbol] using this
      · have := fromUci_names mf mt hf ht ['q'] (some QUEEN)
          (Or.inr (Or.inr (Or.inr (Or.inr ⟨rfl, rfl⟩))))
        simpa [Move.uci, uciPromotionSymbol] using this
  · subst hf0 hd hp
    obtain ⟨b1, b2, hB⟩ := List.length_eq_two.mp (squareName_length mt ht)
    have hsqT : parseSquare [b1, b2] = some mt := by
      rw [← hB]; exact parseSquare_squareName mt ht
    interval_cases d <;>
    · rw [Move.uci]
      simp only [uciDropSymbol]
      rw [hB]
      rw [Move.fromUci]
      rw [if_neg (by simp), if_neg (by simp), if_pos (by simp)]
      simp only [List.cons_append, List.nil_append, List.drop_succ_cons,
        List.drop_zero, List.take_succ_cons, List.take_zero, List.take_nil,
        List.get?_cons_zero, Option.getD_some]
      rw [hsqT]
      dsimp only
      simp only [Option.some.injEq, Move.mk.injEq, true_and, and_true,
        List.getD_cons_zero]
      all_goals decide

theorem c7_uci_roundtrip_witness :
    Move.fromUci (Move.uci ⟨12, 28, none, none⟩) = some ⟨12, 28, none, none⟩ :=
  c7_uci_roundtrip ⟨12, 28, none, none⟩ (by decide) (by decide)
    (Or.inl ⟨rfl, Or.inl rfl⟩)

/-- **C6.** A per-move parse failure never aborts the build: the builder
records a `GameError` carrying the message, the failing SAN and the FEN of
the position at the time of failure, and continues with the remaining
moves at the same nesting level (same parent cursor, same board); the
failing record's own variation groups are skipped. -/
theorem c6_error_recovery (nota : Option SanRecord) (vars : List (List PgnMove))
    (rest : List PgnMove) (b : Board) (err : List Char)
    (h : parseMove nota b = Except.error err) :
    buildMoveTree (PgnMove.entry nota vars :: rest) b =
      match buildMoveTree rest b with
      | none => none
      | some (cs, es) => some (cs, buildError nota b :: es) := by
  rw [buildMoveTree]
  rw [h]

theorem c6_error_recovery_witness :
    buildMoveTree errorExampleMoves loneKingsBoard =
      match buildMoveTree (errorExampleMoves.drop 1) loneKingsBoard with
      | none => none
      | some (cs, es) =>
        some (cs, buildError (some badQueenRecord) loneKingsBoard :: es) :=
  c6_error_recovery (some badQueenRecord) [] (errorExampleMoves.drop 1)
    loneKingsBoard ("Could not find legal move for: Qd5".data) (by decide)

/-- **C3 counterexample.** `parseSan` does not always return a legal move
or fail: on the lone-kings board (no castling rights) `parseSan("O-O")`
returns the move e1–g1 even though it is not legal; and with two knights
both able to reach b3, the ambiguous SAN `Nb3` does not fail but returns
the first matching legal move in generation order. -/
theorem c3_counterexample :
    (loneKingsBoard.parseSan "O-O".data = Except.ok ⟨4, 6, none, none⟩ ∧
      (⟨4, 6, none, none⟩ : Move) ∉ loneKingsBoard.legalMoves) ∧
    (twoKnightsBoard.parseSan "Nb3".data = Except.ok ⟨0, 17, none, none⟩ ∧
      (⟨0, 17, none, none⟩ : Move) ∈ twoKnightsBoard.legalMoves ∧
      (⟨2, 17, none, none⟩ : Move) ∈ twoKnightsBoard.legalMoves ∧
      twoKnightsBoard.pieceAt 0 = some ⟨KNIGHT, WHITE⟩ ∧
      twoKnightsBoard.pieceAt 2 = some ⟨KNIGHT, WHITE⟩) := by
  decide

/-- **C3 amended.** Except for the castling and null-move notations —
which `parseSan` constructs directly without a legality check — every move
`parseSan` returns is drawn from the position's legal moves (so it is
legal, and in particular `parseSan` fails when no legal move matches);
when several legal moves satisfy the constraints it returns the first in
generation order instead of failing. -/
theorem c3_parse_san_legal (b : Board) (s : List Char) (m : Move)
    (h : b.parseSan s = Except.ok m) :
    isCastleOrNullSan (cleanSan s) = true ∨ m ∈ b.legalMoves := by
  rw [Board.parseSan] at h
  split at h
  · left
    rename_i hc
    unfold isCastleOrNullSan cleanSan
    rcases hc with hc | hc <;> rw [hc] <;> rfl
  · split at h
    · left
      rename_i hc
      unfold isCastleOrNullSan cleanSan
      rcases hc with hc | hc <;> rw [hc] <;> rfl
    · split at h
      · left
        rename_i hc
        unfold isCastleOrNullSan cleanSan
        rcases hc with hc | hc <;> rw [hc] <;> rfl
      · right
        dsimp only at h
        repeat' split at h
        all_goals first
          | exact absurd h (fun hc => Except.noConfusion hc)
          | (injection h with h
             subst h
             rename_i hfind
             exact List.mem_of_find?_eq_some hfind)

theorem c3_parse_san_legal_witness :
    isCastleOrNullSan (cleanSan "Kd1".data) = true ∨
      (⟨4, 3, none, none⟩ : Move) ∈ loneKingsBoard.legalMoves :=
  c3_parse_san_legal loneKingsBoard "Kd1".data ⟨4, 3, none, none⟩ (by decide)

theorem c8_ep_capture_witness :
    (epBoard.push ⟨36, 43, none, none⟩).1.moveStack =
      ⟨⟨36, 43, none, none⟩, epBoard.pieceAt 43, epBoard.saveState⟩ ::
        epBoard.moveStack ∧
    (epBoard.push ⟨36, 43, none, none⟩).1.pieceAt 35 = none ∧
    (epBoard.push ⟨36, 43, none, none⟩).1.halfmoveClock = 0 := by
  have h := c8_ep_capture epBoard ⟨36, 43, none, none⟩ ⟨PAWN, WHITE⟩
    (by decide) (by decide) (by decide) (by decide) (by decide)
    (fun _ => by decide) (by decide)
  exact ⟨h.1, by simpa using h.2.1, h.2.2⟩

/-! ## C4 support: decimal field round-trip -/

theorem takeWhile_eq_self (p : Char → Bool) :
    ∀ l : List Char, (∀ c ∈ l, p c = true) → l.takeWhile p = l := by
  intro l h
  induction l with
  | nil => rfl
  | cons c rest ih =>
    rw [List.takeWhile_cons, h c (List.mem_cons_self c rest)]
    exact congrArg (c :: ·) (ih fun x hx => h x (List.mem_cons_of_mem c hx))

theorem natToCharsAux_append : ∀ (fuel n : Nat) (acc : List Char),
    natToCharsAux fuel n acc = natToCharsAux fuel n [] ++ acc := by
  intro fuel
  induction fuel with
  | zero => intro n acc; rfl
  | succ f ih =>
    intro n acc
    by_cases h : n < 10
    · simp [natToCharsAux, h]
    · rw [natToCharsAux, if_neg h, natToCharsAux, if_neg h,
        ih (n / 10) (digitChar (n % 10) :: acc), ih (n / 10) [digitChar (n % 10)]]
      simp

theorem digitChar_facts : ∀ k ≤ 9,
    (digitChar k).isWhitespace = false ∧ digitChar k ≠ '/' ∧
    ('0' ≤ digitChar k ∧ digitChar k ≤ '9') ∧ (digitChar k).toNat = 48 + k := by
  decide

theorem natToCharsAux_mem : ∀ (fuel n : Nat), n < fuel →
    ∀ c ∈ natToCharsAux fuel n [], ∃ k, k ≤ 9 ∧ c = digitChar k := by
  intro fuel
  induction fuel with
  | zero => intro n hn; omega
  | succ f ih =>
    intro n hn c hc
    by_cases h : n < 10
    · rw [natToCharsAux, if_pos h] at hc
      rcases List.mem_singleton.mp hc with rfl
      exact ⟨n, by omega, rfl⟩
    · rw [natToCharsAux, if_neg h, natToCharsAux_append] at hc
      rcases List.mem_append.mp hc with h1 | h1
      · exact ih (n / 10) (by omega) c h1
      · rcases List.mem_singleton.mp h1 with rfl
        exact ⟨n % 10, by omega, rfl⟩

theorem natToCharsAux_ne_nil : ∀ (fuel n : Nat), n < fuel →
    natToCharsAux fuel n [] ≠ [] := by
  intro fuel
  induction fuel with
  | zero => intro n hn; omega
  | succ f ih =>
    intro n hn
    by_cases h : n < 10
    · rw [natToCharsAux, if_pos h]; exact List.cons_ne_nil _ _
    · rw [natToCharsAux, if_neg h, natToCharsAux_append]
      intro hcontra
      exact ih (n / 10) (by omega) (List.append_eq_nil.mp hcontra).1

theorem natToCharsAux_foldl : ∀ (fuel n : Nat), n < fuel → ∀ a : Nat,
    (natToCharsAux fuel n []).foldl (fun a c => a * 10 + (c.toNat - 48)) a =
      a * 10 ^ (natToCharsAux fuel n []).length + n := by
  intro fuel
  induction fuel with
  | zero => intro n hn; omega
  | succ f ih =>
    intro n hn a
    by_cases h : n < 10
    · rw [natToCharsAux, if_pos h]
      simp [List.foldl, (digitChar_facts n (by omega)).2.2.2]
    · rw [natToCharsAux, if_neg h, natToCharsAux_append, List.foldl_append,
        List.length_append, ih (n / 10) (by omega) a]
      simp only [List.foldl, List.length_singleton,
        (digitChar_facts (n % 10) (by omega)).2.2.2]
      have h10 : (10 : Nat) ^ ((natToCharsAux f (n / 10) []).length + 1) =
          10 ^ (natToCharsAux f (n / 10) []).length * 10 := by ring
      rw [h10]
      have := Nat.div_add_mod n 10
      ring_nf
      omega

theorem parseIntOpt_natToChars (n : Nat) : parseIntOpt (natToChars n) = some n := by
  unfold parseIntOpt natToChars
  rw [takeWhile_eq_self _ _ (fun c hc => by
    rcases natToCharsAux_mem (n + 1) n (by omega) c hc with ⟨k, hk, rfl⟩
    simpa using (digitChar_facts k hk).2.2.1)]
  rw [if_neg (natToCharsAux_ne_nil (n + 1) n (by omega))]
  rw [natToCharsAux_foldl (n + 1) n (by omega) 0]
  simp

theorem natToChars_not_ws (n : Nat) :
    ∀ c ∈ natToChars n, c.isWhitespace = false := by
  intro c hc
  rcases natToCharsAux_mem (n + 1) n (by omega) c hc with ⟨k, hk, rfl⟩
  exact (digitChar_facts k hk).1

theorem natToChars_ne_nil (n : Nat) : natToChars n ≠ [] :=
  natToCharsAux_ne_nil (n + 1) n (by omega)

/-! ## C4 support: whitespace split round-trip -/

theorem splitWsStep_run : ∀ (a : List Char), (∀ c ∈ a, c.isWhitespace = false) →
    ∀ (g : List (List Char)) (cur : List Char),
    a.foldl splitWsStep (g, cur, false) = (g, a.reverse ++ cur, false) := by
  intro a
  induction a with
  | nil => intro _ g cur; rfl
  | cons c rest ih =>
    intro h g cur
    rw [List.foldl_cons]
    have hc : c.isWhitespace = false := h c (List.mem_cons_self c rest)
    have hstep : splitWsStep (g, cur, false) c = (g, c :: cur, false) := by
      simp [splitWsStep, hc]
    rw [hstep, ih (fun x hx => h x (List.mem_cons_of_mem c hx)) g (c :: cur)]
    simp

theorem splitWsStep_groups_append : ∀ (s : List Char) (g1 g2 : List (List Char))
    (cur : List Char) (inw : Bool),
    s.foldl splitWsStep (g1 ++ g2, cur, inw) =
      ((s.foldl splitWsStep (g1, cur, inw)).1 ++ g2,
       (s.foldl splitWsStep (g1, cur, inw)).2) := by
  intro s
  induction s with
  | nil => intro g1 g2 cur inw; rfl
  | cons c rest ih =>
    intro g1 g2 cur inw
    rw [List.foldl_cons, List.foldl_cons]
    by_cases hw : c.isWhitespace
    · by_cases hi : inw = true
      · subst hi
        have h1 : splitWsStep (g1 ++ g2, cur, true) c = (g1 ++ g2, cur, true) := by
          simp [splitWsStep, hw]
        have h2 : splitWsStep (g1, cur, true) c = (g1, cur, true) := by
          simp [splitWsStep, hw]
        rw [h1, h2, ih]
      · have hi' : inw = false := Bool.eq_false_iff.mpr hi
        subst hi'
        have h1 : splitWsStep (g1 ++ g2, cur, false) c =
            (cur.reverse :: (g1 ++ g2), [], true) := by simp [splitWsStep, hw]
        have h2 : splitWsStep (g1, cur, false) c = (cur.reverse :: g1, [], true) := by
          simp [splitWsStep, hw]
        rw [h1, h2, show cur.reverse :: (g1 ++ g2) = (cur.reverse :: g1) ++ g2 from rfl, ih]
    · have hw' : c.isWhitespace = false := Bool.eq_false_iff.mpr hw
      cases inw with
      | true =>
        have h1 : splitWsStep (g1 ++ g2, cur, true) c = (g1 ++ g2, [c], false) := by
          simp [splitWsStep, hw']
        have h2 : splitWsStep (g1, cur, true) c = (g1, [c], false) := by
          simp [splitWsStep, hw']
        rw [h1, h2, ih]
      | false =>
        have h1 : splitWsStep (g1 ++ g2, cur, false) c = (g1 ++ g2, c :: cur, false) := by
          simp [splitWsStep, hw']
        have h2 : splitWsStep (g1, cur, false) c = (g1, c :: cur, false) := by
          simp [splitWsStep, hw']
        rw [h1, h2, ih]

theorem splitWsRuns_single (f : List Char) (hws : ∀ c ∈ f, c.isWhitespace = false) :
    splitWsRuns f = [f] := by
  unfold splitWsRuns
  rw [splitWsStep_run f hws [] []]
  simp

theorem splitWsRuns_field (f rest : List Char)
    (hws : ∀ c ∈ f, c.isWhitespace = false)
    (hrest : ∀ c, rest.head? = some c → c.isWhitespace = false) :
    splitWsRuns (f ++ ' ' :: rest) = f :: splitWsRuns rest := by
  unfold splitWsRuns
  rw [List.foldl_append, splitWsStep_run f hws [] [], List.foldl_cons]
  have hstep : splitWsStep ([], f.reverse ++ [], false) ' ' = ([f], [], true) := by
    simp [splitWsStep]
  rw [hstep]
  cases rest with
  | nil => simp
  | cons c r =>
    have hc : c.isWhitespace = false := hrest c rfl
    rw [List.foldl_cons, List.foldl_cons]
    have h1 : splitWsStep ([f], [], true) c = ([f], [c], false) := by
      simp [splitWsStep, hc]
    have h2 : splitWsStep ([], [], false) c = ([], [c], false) := by
      simp [splitWsStep, hc]
    rw [h1, h2, show ([f] : List (List Char)) = [] ++ [f] from rfl,
      splitWsStep_groups_append]
    rcases hr : r.foldl splitWsStep ([], [c], false) with ⟨g, cur, i⟩
    simp

/-! ## C4 support: slash split and placement characters -/

theorem splitChar_no_sep (sep : Char) :
    ∀ r : List Char, sep ∉ r → splitChar sep r = [r] := by
  intro r
  induction r with
  | nil => intro _; rfl
  | cons c rest ih =>
    intro h
    have hc : c ≠ sep := fun hcs => h (hcs ▸ List.mem_cons_self c rest)
    rw [splitChar, if_neg hc, ih fun hm => h (List.mem_cons_of_mem c hm)]

theorem splitChar_field (sep : Char) :
    ∀ (r rest : List Char), sep ∉ r →
    splitChar sep (r ++ sep :: rest) = r :: splitChar sep rest := by
  intro r
  induction r with
  | nil =>
    intro rest _
    rw [List.nil_append, splitChar, if_pos rfl]
  | cons c rs ih =>
    intro rest h
    have hc : c ≠ sep := fun hcs => h (hcs ▸ List.mem_cons_self c rs)
    rw [List.cons_append, splitChar, if_neg hc,
      ih rest fun hm => h (List.mem_cons_of_mem c hm)]

theorem splitChar_intersperse (sep : Char) :
    ∀ rows : List (List Char), rows ≠ [] → (∀ r ∈ rows, sep ∉ r) →
    splitChar sep (rows.intersperse [sep]).flatten = rows := by
  intro rows
  induction rows with
  | nil => intro h; exact absurd rfl h
  | cons r rest ih =>
    intro _ hsep
    cases rest with
    | nil =>
      simp only [List.intersperse_single, List.flatten_cons, List.flatten_nil,
        List.append_nil]
      exact splitChar_no_sep sep r (hsep r (List.mem_cons_self r []))
    | cons r2 rest2 =>
      rw [List.intersperse_cons_cons, List.flatten_cons, List.flatten_cons,
        show ([sep] : List Char) ++ ((r2 :: rest2).intersperse [sep]).flatten =
          sep :: ((r2 :: rest2).intersperse [sep]).flatten from rfl,
        splitChar_field sep r _ (hsep r (List.mem_cons_self r _)),
        ih (List.cons_ne_nil r2 rest2)
          fun x hx => hsep x (List.mem_cons_of_mem r hx)]

/-! ## C4 support: piece symbols and row round-trip -/

theorem piece_symbol_facts : ∀ pt < 7, 1 ≤ pt → ∀ col : Bool,
    Piece.fromSymbol (Piece.symbol ⟨pt, col⟩) = some ⟨pt, col⟩ ∧
    ¬('1' ≤ Piece.symbol ⟨pt, col⟩ ∧ Piece.symbol ⟨pt, col⟩ ≤ '8') ∧
    Piece.symbol ⟨pt, col⟩ ≠ '/' ∧
    (Piece.symbol ⟨pt, col⟩).isWhitespace = false := by
  decide

theorem digitChar_digit18 : ∀ e < 9, 1 ≤ e →
    ('1' ≤ digitChar e ∧ digitChar e ≤ '8') ∧ (digitChar e).toNat = 48 + e := by
  decide

theorem renderRankGo_chars : ∀ (cells : List (Option Piece)) (e : Nat),
    cells.length + e ≤ 8 → ValidCells cells →
    ∀ c ∈ renderRankGo cells e, c ≠ '/' ∧ c.isWhitespace = false := by
  intro cells
  induction cells with
  | nil =>
    intro e he _ c hc
    rw [renderRankGo] at hc
    by_cases h0 : 0 < e
    · rw [if_pos h0] at hc
      rcases List.mem_singleton.mp hc with rfl
      have he9 : e ≤ 9 := by simp at he; omega
      exact ⟨(digitChar_facts e he9).2.1, (digitChar_facts e he9).1⟩
    · rw [if_neg h0] at hc
      exact absurd hc (List.not_mem_nil c)
  | cons op rest ih =>
    intro e he hv c hc
    cases op with
    | none =>
      rw [renderRankGo] at hc
      refine ih (e + 1) ?_ (fun x hx => hv x (List.mem_cons_of_mem none hx)) c hc
      simp at he ⊢; omega
    | some q =>
      rw [renderRankGo] at hc
      have hq := hv (some q) (List.mem_cons_self _ rest) q rfl
      have hsym := piece_symbol_facts q.pieceType (by omega) hq.1 q.color
      rcases List.mem_append.mp hc with h1 | h1
      · by_cases h0 : 0 < e
        · rw [if_pos h0] at h1
          rcases List.mem_singleton.mp h1 with rfl
          have he9 : e ≤ 9 := by simp at he; omega
          exact ⟨(digitChar_facts e he9).2.1, (digitChar_facts e he9).1⟩
        · rw [if_neg h0] at h1
          exact absurd h1 (List.not_mem_nil c)
      · rcases List.mem_cons.mp h1 with rfl | h2
        · have heta : (⟨q.pieceType, q.color⟩ : Piece) = q := rfl
          rw [heta] at hsym
          exact ⟨hsym.2.2.1, hsym.2.2.2⟩
        · refine ih 0 ?_ (fun x hx => hv x (List.mem_cons_of_mem _ hx)) c h2
          simp at he ⊢; omega

theorem parseRowInto_renderRankGo (rank : Nat) :
    ∀ (cells : List (Option Piece)) (e f : Nat) (p : List (Option Piece)),
    cells.length + e + f ≤ 8 → ValidCells cells →
    Board.parseRowInto rank (renderRankGo cells e) f p =
      some (writeCells rank p (f + e) cells) := by
  intro cells
  induction cells with
  | nil =>
    intro e f p he _
    rw [renderRankGo, writeCells]
    by_cases h0 : 0 < e
    · have he8 : e < 9 := by simp at he; omega
      have hd := digitChar_digit18 e he8 h0
      rw [if_pos h0, Board.parseRowInto, if_pos hd.1, Board.parseRowInto]
    · rw [if_neg h0, Board.parseRowInto]
  | cons op rest ih =>
    intro e f p he hv
    have hvrest : ValidCells rest := fun x hx => hv x (List.mem_cons_of_mem op hx)
    cases op with
    | none =>
      rw [renderRankGo, writeCells]
      have := ih (e + 1) f p (by simp at he ⊢; omega) hvrest
      rw [this]
      have harith : f + (e + 1) = f + e + 1 := by omega
      rw [harith]
    | some q =>
      have hq := hv (some q) (List.mem_cons_self _ rest) q rfl
      have hsym := piece_symbol_facts q.pieceType (by omega) hq.1 q.color
      have heta : (⟨q.pieceType, q.color⟩ : Piece) = q := rfl
      rw [heta] at hsym
      rw [renderRankGo, writeCells]
      by_cases h0 : 0 < e
      · have he8 : e < 9 := by simp at he; omega
        have hd := digitChar_digit18 e he8 h0
        rw [if_pos h0, List.singleton_append, Board.parseRowInto, if_pos hd.1]
        have harith : f + ((digitChar e).toNat - 48) = f + e := by rw [hd.2]; omega
        rw [harith, Board.parseRowInto, if_neg hsym.2.1, hsym.1]
        dsimp only
        rw [ih 0 (f + e + 1) (p.set (rank * 8 + (f + e)) (some q))
            (by simp at he ⊢; omega) hvrest]
      · have he0 : e = 0 := by omega
        subst he0
        rw [if_neg h0, List.nil_append, Board.parseRowInto, if_neg hsym.2.1, hsym.1]
        dsimp only
        rw [ih 0 (f + 1) (p.set (rank * 8 + f) (some q))
            (by simp at he ⊢; omega) hvrest]
        norm_num

/-! ## C4 support: piece placement assembly -/

theorem writeCells_length (rank : Nat) : ∀ (cells p : List (Option Piece)) (f : Nat),
    (writeCells rank p f cells).length = p.length := by
  intro cells
  induction cells with
  | nil => intro p f; rfl
  | cons op rest ih =>
    intro p f
    cases op with
    | none => rw [writeCells, ih]
    | some q => rw [writeCells, ih, List.length_set]

theorem writeCells_getD (rank : Nat) : ∀ (cells p : List (Option Piece)) (f i : Nat),
    rank * 8 + f + cells.length ≤ p.length →
    (writeCells rank p f cells).getD i none =
      if rank * 8 + f ≤ i ∧ i < rank * 8 + f + cells.length then
        (match cells.getD (i - (rank * 8 + f)) none with
         | some q => some q
         | none => p.getD i none)
      else p.getD i none := by
  intro cells
  induction cells with
  | nil =>
    intro p f i _
    rw [writeCells, if_neg (by simp only [List.length_nil]; omega)]
  | cons op rest ih =>
    intro p f i hb
    simp only [List.length_cons] at hb ⊢
    have hb' : rank * 8 + (f + 1) + rest.length ≤ p.length := by omega
    cases op with
    | none =>
      rw [writeCells, ih p (f + 1) i hb']
      by_cases heq : i = rank * 8 + f
      · subst heq
        rw [if_neg (by omega), if_pos (by omega)]
        simp
      · by_cases hin : rank * 8 + (f + 1) ≤ i ∧ i < rank * 8 + (f + 1) + rest.length
        · rw [if_pos hin, if_pos (by omega),
            show i - (rank * 8 + f) = (i - (rank * 8 + (f + 1))) + 1 by omega,
            List.getD_cons_succ]
        · rw [if_neg hin, if_neg (fun hc => hin ⟨by omega, by omega⟩)]
    | some q =>
      rw [writeCells, ih _ (f + 1) i (by rw [List.length_set]; exact hb')]
      have hset := getD_set p (rank * 8 + f) i (some q) none
      by_cases heq : i = rank * 8 + f
      · subst heq
        rw [if_neg (by omega), if_pos (by omega), hset, if_pos ⟨rfl, by omega⟩]
        simp
      · by_cases hin : rank * 8 + (f + 1) ≤ i ∧ i < rank * 8 + (f + 1) + rest.length
        · rw [if_pos hin, if_pos (by omega),
            show i - (rank * 8 + f) = (i - (rank * 8 + (f + 1))) + 1 by omega,
            List.getD_cons_succ]
          cases hr : rest.getD (i - (rank * 8 + (f + 1))) none with
          | some x => rfl
          | none => rw [hset, if_neg (by omega)]
        · rw [if_neg hin, if_neg (fun hc => hin ⟨by omega, by omega⟩), hset,
            if_neg (by omega)]

theorem rankCells_length (q : List (Option Piece)) (r : Nat) :
    (rankCells q r).length = 8 := by
  simp [rankCells]

theorem rankCells_getD (q : List (Option Piece)) (r k : Nat) (hk : k < 8) :
    (rankCells q r).getD k none = q.getD (r * 8 + k) none := by
  simp only [rankCells, List.getD, List.get?_eq_getElem?, List.getElem?_map,
    List.getElem?_range, hk]
  simp [hk]

theorem valid_rankCells (q : List (Option Piece)) (hv : ValidCells q) (r : Nat) :
    ValidCells (rankCells q r) := by
  intro op hop x hx
  subst hx
  simp only [rankCells, List.mem_map, List.mem_range] at hop
  rcases hop with ⟨f, _, hf⟩
  have hmem : some x ∈ q := by
    have : q.getD (r * 8 + f) none = some x := hf
    rw [List.getD, List.get?_eq_getElem?] at this
    cases hg : q[r * 8 + f]? with
    | none => rw [hg] at this; exact absurd this (by simp)
    | some y =>
      rw [hg] at this
      simp at this
      subst this
      exact List.getElem?_mem hg
  exact hv (some x) hmem x rfl

theorem getD_replicate_none (i : Nat) :
    (List.replicate 64 (none : Option Piece)).getD i none = none := by
  rw [List.getD, List.get?_eq_getElem?, List.getElem?_replicate]
  by_cases h : i < 64 <;> simp [h]

theorem writeRank_getD (r : Nat) (hr : r < 8) (q p : List (Option Piece))
    (hp : p.length = 64) (i : Nat) (_ : i < 64) :
    (writeCells r p 0 (rankCells q r)).getD i none =
      if i / 8 = r then
        (match q.getD i none with
         | some x => some x
         | none => p.getD i none)
      else p.getD i none := by
  rw [writeCells_getD r (rankCells q r) p 0 i
    (by rw [rankCells_length, hp]; omega)]
  rw [rankCells_length]
  by_cases hdiv : i / 8 = r
  · rw [if_pos (by omega), if_pos hdiv,
      show i - (r * 8 + 0) = i % 8 by omega,
      rankCells_getD q r (i % 8) (by omega),
      show r * 8 + i % 8 = i by omega]
  · rw [if_neg (by omega), if_neg hdiv]

/-! ## C4 support: the placement field -/

theorem mem_intersperse {α : Type} (s : α) :
    ∀ (l : List α) (x : α), x ∈ l.intersperse s → x ∈ l ∨ x = s
  | [], x, h => absurd h (List.not_mem_nil x)
  | [a], x, h => Or.inl (by simpa using h)
  | a :: b :: tl, x, h => by
    rw [List.intersperse_cons_cons] at h
    rcases List.mem_cons.mp h with rfl | h2
    · exact Or.inl (List.mem_cons_self _ _)
    rcases List.mem_cons.mp h2 with rfl | h3
    · exact Or.inr rfl
    rcases mem_intersperse s (b :: tl) x h3 with h4 | h4
    · exact Or.inl (List.mem_cons_of_mem _ h4)
    · exact Or.inr h4

theorem placementRows_length (q : List (Option Piece)) :
    (placementRows q).length = 8 := by
  simp [placementRows]

theorem placementRows_getD (q : List (Option Piece)) (k : Nat) (hk : k < 8) :
    (placementRows q).getD k [] = renderRankGo (rankCells q (7 - k)) 0 := by
  simp only [placementRows, List.getD, List.get?_eq_getElem?, List.getElem?_map,
    List.getElem?_range, hk]
  simp [hk]

theorem placementRows_chars (q : List (Option Piece)) (hv : ValidCells q) :
    ∀ r ∈ placementRows q, ∀ c ∈ r, c ≠ '/' ∧ c.isWhitespace = false := by
  intro r hr c hc
  simp only [placementRows, List.mem_map, List.mem_range] at hr
  rcases hr with ⟨i, _, rfl⟩
  exact renderRankGo_chars (rankCells q (7 - i)) 0
    (by rw [rankCells_length]) (valid_rankCells q hv (7 - i)) c hc

theorem splitChar_placement (q : List (Option Piece)) (hv : ValidCells q) :
    splitChar '/' (placementField q) = placementRows q := by
  refine splitChar_intersperse '/' (placementRows q) ?_ ?_
  · intro h
    have := placementRows_length q
    rw [h] at this
    exact absurd this (by decide)
  · intro r hr hc
    exact (placementRows_chars q hv r hr '/' hc).1 rfl

theorem placementField_ne_nil (q : List (Option Piece)) :
    placementField q ≠ [] := by
  unfold placementField
  have h8 := placementRows_length q
  rcases hrows : placementRows q with _ | ⟨r0, _ | ⟨r1, rest⟩⟩
  · rw [hrows] at h8; exact absurd h8 (by simp)
  · rw [hrows] at h8; exact absurd h8 (by simp)
  · rw [List.intersperse_cons_cons, List.flatten_cons, List.flatten_cons]
    intro hc
    rcases List.append_eq_nil.mp hc with ⟨_, h2⟩
    rcases List.append_eq_nil.mp h2 with ⟨h3, _⟩
    exact List.cons_ne_nil _ _ h3

theorem placementField_not_ws (q : List (Option Piece)) (hv : ValidCells q) :
    ∀ c ∈ placementField q, c.isWhitespace = false := by
  intro c hc
  unfold placementField at hc
  rcases List.mem_flatten.mp hc with ⟨l, hl, hcl⟩
  rcases mem_intersperse ['/'] (placementRows q) l hl with h | rfl
  · exact (placementRows_chars q hv l h c hcl).2
  · rcases List.mem_singleton.mp hcl with rfl
    decide

/-! ## C4 support: the scalar fields -/

theorem turnField_not_ws (t : Color) : ∀ c ∈ turnField t, c.isWhitespace = false := by
  cases t <;> decide

theorem turnField_ne_nil (t : Color) : turnField t ≠ [] := by
  cases t <;> decide

theorem castlingChars_mem (r : Nat) :
    ∀ c ∈ castlingChars r, c ∈ (['K', 'Q', 'k', 'q'] : List Char) := by
  intro c hc
  unfold castlingChars at hc
  rcases List.mem_append.mp hc with h | h
  rotate_left
  · split at h
    · rcases List.mem_singleton.mp h with rfl; decide
    · exact absurd h (List.not_mem_nil c)
  rcases List.mem_append.mp h with h2 | h2
  rotate_left
  · split at h2
    · rcases List.mem_singleton.mp h2 with rfl; decide
    · exact absurd h2 (List.not_mem_nil c)
  rcases List.mem_append.mp h2 with h3 | h3
  · split at h3
    · rcases List.mem_singleton.mp h3 with rfl; decide
    · exact absurd h3 (List.not_mem_nil c)
  · split at h3
    · rcases List.mem_singleton.mp h3 with rfl; decide
    · exact absurd h3 (List.not_mem_nil c)

theorem castlingField_not_ws (r : Nat) :
    ∀ c ∈ castlingField r, c.isWhitespace = false := by
  intro c hc
  unfold castlingField at hc
  split at hc
  · rcases List.mem_singleton.mp hc with rfl; decide
  · have := castlingChars_mem r c hc
    fin_cases this <;> decide

theorem castlingField_ne_nil (r : Nat) : castlingField r ≠ [] := by
  unfold castlingField
  split
  · exact List.cons_ne_nil _ _
  · assumption

theorem castlingField_roundtrip : ∀ r < 16,
    (if castlingField r ≠ ['-'] then parseCastlingChars (castlingField r) else 0) = r := by
  decide

theorem squareName_facts : ∀ s < 64,
    squareName s ≠ [] ∧ squareName s ≠ ['-'] ∧
    ∀ c ∈ squareName s, c.isWhitespace = false := by
  decide

theorem epField_not_ws (ep : Option Nat) (hep : ∀ e, ep = some e → e < 64) :
    ∀ c ∈ epField ep, c.isWhitespace = false := by
  cases ep with
  | none => intro c hc; rcases List.mem_singleton.mp hc with rfl; decide
  | some e => exact (squareName_facts e (hep e rfl)).2.2

theorem epField_ne_nil (ep : Option Nat) (hep : ∀ e, ep = some e → e < 64) :
    epField ep ≠ [] := by
  cases ep with
  | none => decide
  | some e => exact (squareName_facts e (hep e rfl)).1

theorem head_append_of_ne_nil {α : Type} (f t : List α) (hne : f ≠ []) :
    (f ++ t).head? = f.head? := by
  cases f with
  | nil => exact absurd rfl hne
  | cons a f' => rfl

/-! ## C4 support: assembling the board -/

theorem assembled_getD (q : List (Option Piece)) (_ : q.length = 64)
    (i : Nat) (hi : i < 64) :
    ([7, 6, 5, 4, 3, 2, 1, 0].foldl (fun p r => writeCells r p 0 (rankCells q r))
      (List.replicate 64 (none : Option Piece))).getD i none = q.getD i none := by
  simp only [List.foldl_cons, List.foldl_nil]
  rw [writeRank_getD 0 (by omega) q _ (by simp [writeCells_length]) i hi,
    writeRank_getD 1 (by omega) q _ (by simp [writeCells_length]) i hi,
    writeRank_getD 2 (by omega) q _ (by simp [writeCells_length]) i hi,
    writeRank_getD 3 (by omega) q _ (by simp [writeCells_length]) i hi,
    writeRank_getD 4 (by omega) q _ (by simp [writeCells_length]) i hi,
    writeRank_getD 5 (by omega) q _ (by simp [writeCells_length]) i hi,
    writeRank_getD 6 (by omega) q _ (by simp [writeCells_length]) i hi,
    writeRank_getD 7 (by omega) q _ (by simp) i hi]
  rcases (by omega : i / 8 = 0 ∨ i / 8 = 1 ∨ i / 8 = 2 ∨ i / 8 = 3 ∨ i / 8 = 4 ∨
      i / 8 = 5 ∨ i / 8 = 6 ∨ i / 8 = 7) with h | h | h | h | h | h | h | h
  all_goals simp only [h]
  all_goals norm_num
  all_goals rcases hqd : q[i]?.getD (none : Option Piece) with _ | x
  all_goals simp [hqd]

theorem assembled_eq (q : List (Option Piece)) (hq : q.length = 64) :
    [7, 6, 5, 4, 3, 2, 1, 0].foldl (fun p r => writeCells r p 0 (rankCells q r))
      (List.replicate 64 (none : Option Piece)) = q := by
  apply List.ext_getElem
  · simp only [List.foldl_cons, List.foldl_nil, writeCells_length]
    simp [hq]
  · intro i h1 h2
    have hi : i < 64 := by rw [hq] at h2; exact h2
    have hgd := assembled_getD q hq i hi
    rwa [List.getD_eq_getElem _ _ h1, List.getD_eq_getElem _ _ h2] at hgd

theorem foldl_parse_eq (q : List (Option Piece)) (hv : ValidCells q) :
    ∀ (rs : List Nat), (∀ r ∈ rs, r < 8) → ∀ p : List (Option Piece),
    rs.foldl (fun acc rank =>
      match acc with
      | none => none
      | some pieces =>
        Board.parseRowInto rank ((placementRows q).getD (7 - rank) []) 0 pieces)
      (some p) =
    some (rs.foldl (fun p r => writeCells r p 0 (rankCells q r)) p) := by
  intro rs
  induction rs with
  | nil => intro _ p; rfl
  | cons r rs' ih =>
    intro hmem p
    rw [List.foldl_cons, List.foldl_cons]
    have hr : r < 8 := hmem r (List.mem_cons_self r rs')
    have hrow : Board.parseRowInto r ((placementRows q).getD (7 - r) []) 0 p =
        some (writeCells r p 0 (rankCells q r)) := by
      rw [placementRows_getD q (7 - r) (by omega), show 7 - (7 - r) = r by omega]
      have hpr := parseRowInto_renderRankGo r (rankCells q r) 0 0 p
        (by rw [rankCells_length]) (valid_rankCells q hv r)
      simpa using hpr
    dsimp only
    rw [hrow]
    exact ih (fun x hx => hmem x (List.mem_cons_of_mem r hx))
      (writeCells r p 0 (rankCells q r))

theorem head_nonws' (f : List Char) (hws : ∀ c ∈ f, c.isWhitespace = false) :
    ∀ c, f.head? = some c → c.isWhitespace = false := by
  cases f with
  | nil => intro c hc; exact absurd hc (by simp)
  | cons a f' =>
    intro c hc
    have hac : a = c := Option.some.inj hc
    exact hac ▸ hws a (List.mem_cons_self a f')

theorem head_nonws (f t : List Char) (hws : ∀ c ∈ f, c.isWhitespace = false)
    (hne : f ≠ []) :
    ∀ c, (f ++ t).head? = some c → c.isWhitespace = false := by
  intro c hc
  rw [head_append_of_ne_nil f t hne] at hc
  exact head_nonws' f hws c hc

theorem setFen_parts (s f0 f1 f2 f3 f4 f5 : List Char)
    (h : splitWsRuns s = [f0, f1, f2, f3, f4, f5]) :
    Board.setFen s =
      (let rows := splitChar '/' f0
       if rows.length ≠ 8 then none
       else
         match [7, 6, 5, 4, 3, 2, 1, 0].foldl (fun acc rank =>
             match acc with
             | none => none
             | some pieces =>
               Board.parseRowInto rank (rows.getD (7 - rank) []) 0 pieces)
             (some (List.replicate 64 none)) with
         | none => none
         | some pieces =>
           some { pieces := pieces
                  turn := if f1 = ['b'] then BLACK else WHITE
                  castlingRights := if f2 ≠ ['-'] then parseCastlingChars f2 else 0
                  epSquare := if f3 ≠ ['-'] then parseSquare f3 else none
                  halfmoveClock := (parseIntOpt f4).getD 0
                  fullmoveNumber :=
                    match parseIntOpt f5 with
                    | some n => if n = 0 then 1 else n
                    | none => 1
                  moveStack := [] }) := by
  simp only [Board.setFen, h]
  norm_num

/-- **C4.** For every well-formed board, `setFen(board.fen())` reproduces
every observable component of the state - side to move, castling rights,
en-passant square, halfmove clock, fullmove number, and the piece on each
of the 64 squares: the parsed board equals `b.copy` (the same board with
the move stack cleared, which `setFen` always clears). -/
theorem c4_fen_roundtrip (b : Board) (h : b.WF) : Board.setFen b.fen = some b.copy := by
  obtain ⟨hlen, hval, hcr, hep, hfm⟩ := h
  have hval' : ValidCells b.pieces := hval
  have hsplit : splitWsRuns b.fen =
      [placementField b.pieces, turnField b.turn, castlingField b.castlingRights,
       epField b.epSquare, natToChars b.halfmoveClock,
       natToChars b.fullmoveNumber] := by
    have e1 : b.fen = placementField b.pieces ++ ' ' ::
        (turnField b.turn ++ ' ' :: (castlingField b.castlingRights ++ ' ' ::
        (epField b.epSquare ++ ' ' :: (natToChars b.halfmoveClock ++ ' ' ::
        natToChars b.fullmoveNumber)))) := by
      rw [Board.fen]
      simp only [List.append_assoc, List.cons_append]
    rw [e1,
      splitWsRuns_field _ _ (placementField_not_ws _ hval')
        (head_nonws _ _ (turnField_not_ws _) (turnField_ne_nil _)),
      splitWsRuns_field _ _ (turnField_not_ws _)
        (head_nonws _ _ (castlingField_not_ws _) (castlingField_ne_nil _)),
      splitWsRuns_field _ _ (castlingField_not_ws _)
        (head_nonws _ _ (epField_not_ws _ hep) (epField_ne_nil _ hep)),
      splitWsRuns_field _ _ (epField_not_ws _ hep)
        (head_nonws _ _ (natToChars_not_ws _) (natToChars_ne_nil _)),
      splitWsRuns_field _ _ (natToChars_not_ws _)
        (head_nonws' _ (natToChars_not_ws _)),
      splitWsRuns_single _ (natToChars_not_ws _)]
  rw [setFen_parts b.fen _ _ _ _ _ _ hsplit]
  simp only [splitChar_placement b.pieces hval']
  rw [if_neg (by rw [placementRows_length]; omega),
    foldl_parse_eq b.pieces hval' [7, 6, 5, 4, 3, 2, 1, 0] (by decide)
      (List.replicate 64 none),
    assembled_eq b.pieces hlen]
  dsimp only
  have ht : (if turnField b.turn = ['b'] then BLACK else WHITE) = b.turn := by
    cases b.turn <;> decide
  have hcst := castlingField_roundtrip b.castlingRights hcr
  have hepf : (if epField b.epSquare ≠ ['-'] then parseSquare (epField b.epSquare)
      else none) = b.epSquare := by
    cases hepc : b.epSquare with
    | none => decide
    | some e =>
      have he : e < 64 := hep e hepc
      rw [show epField (some e) = squareName e from rfl,
        if_pos (squareName_facts e he).2.1, parseSquare_squareName e he]
  have hhm : (parseIntOpt (natToChars b.halfmoveClock)).getD 0 =
      b.halfmoveClock := by
    rw [parseIntOpt_natToChars]
    rfl
  have hfmf : (match parseIntOpt (natToChars b.fullmoveNumber) with
      | some n => if n = 0 then 1 else n
      | none => 1) = b.fullmoveNumber := by
    rw [parseIntOpt_natToChars]
    dsimp only
    rw [if_neg (by omega)]
  rw [ht, hcst, hepf, hhm, hfmf]
  rfl

theorem c4_fen_roundtrip_witness :
    startBoard.WF ∧ Board.setFen startBoard.fen = some startBoard.copy :=
  ⟨by decide, c4_fen_roundtrip startBoard (by decide)⟩

end PgnChessTree
